import Mathlib

/-!
# pio-profiler: `StatValue` and `IntervalMeasureTime`

A shallow embedding of `include/profiler.h`.

Machine integers are natural numbers with explicit reduction:
* `unsigned long` (the `TValue` of `StatValue<unsigned long>`, and the type of the
  clock readings `millis()` / `micros()`) is `w` bits wide, `w` being a parameter;
* `unsigned int` (the type of `NumInc`) is `UINT_BITS = 32` bits wide.

The two static maps of `IntervalMeasureTime` are passed explicitly as a state, and a
clock reading is an argument of `Tick`.
-/

namespace Profiler

/-! ## Machine arithmetic -/

/-- Width of `unsigned int`, the type of `StatValue::NumInc`. -/
def UINT_BITS : Nat := 32

/-- Subtraction `a - b` of two `unsigned long` values (both below `2 ^ w`). -/
def usub (w a b : Nat) : Nat := (a + 2 ^ w - b) % 2 ^ w

/-! ## `StatValue<unsigned long>` -/

/-- The four private fields of `StatValue`. -/
structure StatValue where
  Value : Nat
  MinDelta : Nat
  MaxDelta : Nat
  NumInc : Nat
deriving DecidableEq

namespace StatValue

/-- Default construction `StatValue<unsigned long>()`: the member initialisers
`Value = 0`, `MinDelta = numeric_limits::max()`, `MaxDelta = numeric_limits::min()`,
`NumInc = 0`. -/
def construct (w : Nat) : StatValue :=
  { Value := 0, MinDelta := 2 ^ w - 1, MaxDelta := 0, NumInc := 0 }

/-- Member `Count()`: `NumInc` converted to `TValue`. -/
def Count (w : Nat) (s : StatValue) : Nat := s.NumInc % 2 ^ w

/-- Member `Total()`: the stored total, gated on `Count() > 0`. -/
def Total (w : Nat) (s : StatValue) : Nat := if Count w s > 0 then s.Value else 0

/-- Member `Min()`: the stored minimum delta, gated on `Count() > 0`. -/
def Min (w : Nat) (s : StatValue) : Nat := if Count w s > 0 then s.MinDelta else 0

/-- Member `Max()`: the stored maximum delta, gated on `Count() > 0`. -/
def Max (w : Nat) (s : StatValue) : Nat := if Count w s > 0 then s.MaxDelta else 0

/-- Member `Avg()`: `Value / Count()` when `Count() > 0`, else the stored `Value`. -/
def Avg (w : Nat) (s : StatValue) : Nat :=
  if Count w s > 0 then s.Value / Count w s else s.Value

/-- Member `operator=(TValue value)`. -/
def assign (w : Nat) (s : StatValue) (value : Nat) : StatValue :=
  let s1 := { s with Value := value }
  let s2 := { s1 with NumInc := 0 }
  let s3 := { s2 with MinDelta := 2 ^ w - 1 }
  { s3 with MaxDelta := 0 }

/-- Member `operator+=(TValue delta)`. -/
def addAssign (w : Nat) (s : StatValue) (delta : Nat) : StatValue :=
  if delta ≠ 0 then
    let s1 := { s with NumInc := (s.NumInc + 1) % 2 ^ UINT_BITS }
    let s2 := { s1 with Value := (s1.Value + delta) % 2 ^ w }
    let s3 := if delta > s2.MaxDelta then { s2 with MaxDelta := delta } else s2
    if delta < s3.MinDelta then { s3 with MinDelta := delta } else s3
  else s

/-- A run of `operator+=` calls, one per delta, first delta first. -/
def addAssignAll (w : Nat) (s : StatValue) (deltas : List Nat) : StatValue :=
  deltas.foldl (addAssign w) s

end StatValue

/-! ## `std::map<const char*, V>` -/

/-- A `const char*` key: the map compares the pointers, not the characters. -/
abbrev CharPtr := Nat

/-- The entries of a `std::map<const char*, V>`, in increasing key order. -/
abbrev StdMap (V : Type) := List (CharPtr × V)

namespace StdMap

/-- Lookup of a key (`std::map::find`). -/
def find {V : Type} : StdMap V → CharPtr → Option V
  | [], _ => none
  | (k', v) :: rest, k => if k' = k then some v else find rest k

/-- Store `v` under `k`, keeping the key order: the entry is overwritten when present
and inserted in place otherwise. -/
def put {V : Type} : StdMap V → CharPtr → V → StdMap V
  | [], k, v => [(k, v)]
  | (k', v') :: rest, k, v =>
    if k = k' then (k, v) :: rest
    else if k < k' then (k, v) :: (k', v') :: rest
    else (k', v') :: put rest k v

/-- Member `operator[]`: the mapped value of `k`; when `k` is absent a value-initialised
entry `dflt` is inserted first. Returns the map afterwards and the mapped value. -/
def index {V : Type} (m : StdMap V) (k : CharPtr) (dflt : V) : StdMap V × V :=
  match find m k with
  | some v => (m, v)
  | none => (put m k dflt, dflt)

/-- The keys, in iteration order. -/
def keys {V : Type} (m : StdMap V) : List CharPtr := m.map Prod.fst

end StdMap

/-! ## `IntervalMeasureTime` -/

/-- The two static maps of `IntervalMeasureTime`. -/
structure IntervalMeasureTime where
  Values : StdMap StatValue
  Timestamps : StdMap Nat
deriving DecidableEq

namespace IntervalMeasureTime

/-- The static maps at program start: both empty. -/
def empty : IntervalMeasureTime := { Values := [], Timestamps := [] }

/-- Member `Tick<Precise>(id)` when the selected clock reads `now`. -/
def Tick (w : Nat) (g : IntervalMeasureTime) (id : CharPtr) (now : Nat) :
    IntervalMeasureTime :=
  let ts := StdMap.index g.Timestamps id 0
  let vals :=
    if ts.2 > 0 then
      let vs := StdMap.index g.Values id (StatValue.construct w)
      StdMap.put vs.1 id (StatValue.addAssign w vs.2 (usub w now ts.2))
    else g.Values
  { Values := vals, Timestamps := StdMap.put ts.1 id now }

/-- Member `Reset(const char* id)`. -/
def Reset (w : Nat) (g : IntervalMeasureTime) (id : CharPtr) : IntervalMeasureTime :=
  let vs := StdMap.index g.Values id (StatValue.construct w)
  let ts := StdMap.index g.Timestamps id 0
  { Values := StdMap.put vs.1 id (StatValue.assign w vs.2 0),
    Timestamps := StdMap.put ts.1 id 0 }

/-- One iteration of the loop of `Reset()`, at the `Values` entry of key `id`:
`value = 0; Timestamps[id] = 0;`. -/
def ResetAllBody (w : Nat) (g : IntervalMeasureTime) (id : CharPtr) :
    IntervalMeasureTime :=
  match StdMap.find g.Values id with
  | some value =>
    { Values := StdMap.put g.Values id (StatValue.assign w value 0),
      Timestamps := StdMap.put (StdMap.index g.Timestamps id 0).1 id 0 }
  | none => g

/-- Member `Reset()`: the range-for over the entries of `Values`. -/
def ResetAll (w : Nat) (g : IntervalMeasureTime) : IntervalMeasureTime :=
  (StdMap.keys g.Values).foldl (ResetAllBody w) g

/-- Member `GetValue(id)`: the maps afterwards and the accumulator referred to. -/
def GetValue (w : Nat) (g : IntervalMeasureTime) (id : CharPtr) :
    IntervalMeasureTime × StatValue :=
  let vs := StdMap.index g.Values id (StatValue.construct w)
  ({ g with Values := vs.1 }, vs.2)

/-- The stored last-tick timestamp of `id`, read without creating an entry
(`0` when `id` is absent, which is what `Timestamps[id]` would insert). -/
def lastTick (g : IntervalMeasureTime) (id : CharPtr) : Nat :=
  (StdMap.find g.Timestamps id).getD 0

/-- The accumulator of `id` as `GetValue(id)` reports it. -/
def valueOf (w : Nat) (g : IntervalMeasureTime) (id : CharPtr) : StatValue :=
  (GetValue w g id).2

end IntervalMeasureTime

/-- Macro `GET_INTERVAL_VALUE(name)`: `IntervalMeasureTime::GetValue(#name)` when
`ENABLE_PROFILE` is set, `StatValue<unsigned long>()` otherwise. -/
def GET_INTERVAL_VALUE (w : Nat) (ENABLE_PROFILE : Bool) (g : IntervalMeasureTime)
    (name : CharPtr) : StatValue :=
  if ENABLE_PROFILE then (IntervalMeasureTime.GetValue w g name).2
  else StatValue.construct w

/-! ## Call sequences -/

/-- A call of one of the four static member functions; `Tick` carries the clock
reading it obtains. -/
inductive Call where
  | Tick (id : CharPtr) (now : Nat)
  | Reset (id : CharPtr)
  | ResetAll
  | GetValue (id : CharPtr)
deriving DecidableEq

/-- The identifier a call is made with, if any. -/
def Call.target : Call → Option CharPtr
  | .Tick id _ => some id
  | .Reset id => some id
  | .ResetAll => none
  | .GetValue id => some id

/-- The effect of one call on the two maps. -/
def Call.apply (w : Nat) (g : IntervalMeasureTime) : Call → IntervalMeasureTime
  | .Tick id now => IntervalMeasureTime.Tick w g id now
  | .Reset id => IntervalMeasureTime.Reset w g id
  | .ResetAll => IntervalMeasureTime.ResetAll w g
  | .GetValue id => (IntervalMeasureTime.GetValue w g id).1

/-- The maps after a sequence of calls, first call first. -/
def run (w : Nat) (g : IntervalMeasureTime) (calls : List Call) : IntervalMeasureTime :=
  calls.foldl (Call.apply w) g

/-- Calls of `Tick(id)`, one at each clock reading of the list, in order. -/
def tickAll (w : Nat) (g : IntervalMeasureTime) (id : CharPtr) (readings : List Nat) :
    IntervalMeasureTime :=
  readings.foldl (fun acc now => IntervalMeasureTime.Tick w acc id now) g

/-- The gaps between consecutive readings. -/
def gaps : List Nat → List Nat
  | a :: b :: rest => (b - a) :: gaps (b :: rest)
  | _ => []

/-- The state of an identifier that was never ticked, or was just reset: no last-tick
timestamp (absent or `0`) and an accumulator that reads as default-constructed. -/
def NeverTicked (w : Nat) (g : IntervalMeasureTime) (id : CharPtr) : Prop :=
  IntervalMeasureTime.lastTick g id = 0 ∧
    IntervalMeasureTime.valueOf w g id = StatValue.construct w

instance NeverTicked.decidable (w : Nat) (g : IntervalMeasureTime) (id : CharPtr) :
    Decidable (NeverTicked w g id) := by
  unfold NeverTicked; infer_instance

/-! ## Sequences of `operator=` and `operator+=` -/

/-- A mutation of a `StatValue`: `operator=(value)` or `operator+=(delta)`. -/
inductive StatOp where
  | assign (value : Nat)
  | addAssign (delta : Nat)
deriving DecidableEq

/-- The `TValue` argument of a mutation. -/
def StatOp.arg : StatOp → Nat
  | .assign value => value
  | .addAssign delta => delta

/-- The effect of one mutation. -/
def StatValue.step (w : Nat) (s : StatValue) : StatOp → StatValue
  | .assign value => StatValue.assign w s value
  | .addAssign delta => StatValue.addAssign w s delta

/-- The state after a sequence of mutations, first mutation first. -/
def StatValue.runOps (w : Nat) (s : StatValue) (ops : List StatOp) : StatValue :=
  ops.foldl (StatValue.step w) s

/-- Bookkeeping of a history of mutations: the value of the most recent `operator=`
and the nonzero deltas passed to `operator+=` since then, oldest first. -/
def track : Nat × List Nat → StatOp → Nat × List Nat
  | _, .assign value => (value, [])
  | (base, ds), .addAssign delta => (base, if delta ≠ 0 then ds ++ [delta] else ds)

/-- The value of the most recent `operator=` of a history (`0`, the initial `Value`,
when there is none). -/
def lastAssigned (ops : List StatOp) : Nat := (ops.foldl track (0, [])).1

/-- The nonzero deltas accumulated since the most recent `operator=` of a history (since
construction when there is none), oldest first. -/
def sinceAssign (ops : List StatOp) : List Nat := (ops.foldl track (0, [])).2

/-- All nonzero deltas ever passed to `operator+=` in a history, oldest first. -/
def allDeltas : List StatOp → List Nat
  | [] => []
  | .assign _ :: rest => allDeltas rest
  | .addAssign delta :: rest => if delta ≠ 0 then delta :: allDeltas rest else allDeltas rest

/-! ## `ScopedMeasureTime<TTimer, StatValue<unsigned long>>` -/

/-- The fields of `ScopedMeasureTime`. The pointer `Target` is kept as the fact of being
non-null; the accumulator it points at is handed to the destructor. -/
structure ScopedMeasureTime where
  Target : Bool
  StartedAt : Nat
deriving DecidableEq

namespace ScopedMeasureTime

/-- Constructor `ScopedMeasureTime(TValue& target)` when the selected clock reads `now`:
`Target(&target)`, `StartedAt = Now()`. -/
def construct (now : Nat) : ScopedMeasureTime := { Target := true, StartedAt := now }

/-- Destructor when the selected clock reads `now`; returns the accumulator pointed at
by `Target` afterwards. -/
def destruct (w : Nat) (self : ScopedMeasureTime) (target : StatValue) (now : Nat) :
    StatValue :=
  if self.Target then StatValue.addAssign w target (usub w now self.StartedAt) else target

end ScopedMeasureTime

/-! ## `ScopedCounter<Precise>` -/

/-- The fields of `ScopedCounter`; a null `const char*` is `none`. -/
structure ScopedCounter where
  StartTimestamp : Nat
  SilentThrethold : Nat
  Name : Option CharPtr
  File : Option CharPtr
  Line : Int
deriving DecidableEq

/-- A call of `PROFILER_LOG_FUNCTION`, by the format string used. -/
inductive LogCall where
  | nameFileLine (Name : CharPtr) (delta : Nat) (Resolution : String) (File : CharPtr)
      (Line : Int)
  | nameOnly (Name : CharPtr) (delta : Nat) (Resolution : String)
  | unknown (delta : Nat) (Resolution : String)
deriving DecidableEq

namespace ScopedCounter

/-- Constructor `ScopedCounter(func, file, line, msSilent)` when the selected clock reads
`now`. -/
def construct (func file : Option CharPtr) (line : Int) (msSilent : Nat) (now : Nat) :
    ScopedCounter :=
  { Name := func, File := file, Line := line, SilentThrethold := msSilent,
    StartTimestamp := now }

/-- Constructor `ScopedCounter(const char* name)`, delegating with `(name, nullptr, -1)`
and the default `msSilent = 0`. -/
def constructNamed (name : Option CharPtr) (now : Nat) : ScopedCounter :=
  construct name none (-1) 0 now

/-- Member `PrintResults(args...)`: forwards to `PROFILER_LOG_FUNCTION` when that macro is
defined and does nothing otherwise. -/
def PrintResults (logDefined : Bool) (call : LogCall) : Option LogCall :=
  if logDefined then some call else none

/-- Destructor when the selected clock reads `now`; returns the call of the log function
it makes, if any. -/
def destruct (w : Nat) (Precise : Bool) (logDefined : Bool) (self : ScopedCounter)
    (now : Nat) : Option LogCall :=
  let Resolution := if Precise then "us" else "ms"
  let delta := usub w now self.StartTimestamp
  if delta ≥ self.SilentThrethold then
    match self.Name with
    | some name =>
      match self.File with
      | some file =>
        PrintResults logDefined (.nameFileLine name delta Resolution file self.Line)
      | none => PrintResults logDefined (.nameOnly name delta Resolution)
    | none => PrintResults logDefined (.unknown delta Resolution)
  else none

end ScopedCounter

/-! ## The calls that create a `Values` entry -/

/-- A call that leaves `id` as a key of `Values` when made in state `g`: `Reset(id)`,
`GetValue(id)`, or a `Tick(id)` that finds a nonzero stored timestamp for `id`. -/
def createsValue (g : IntervalMeasureTime) (id : CharPtr) : Call → Prop
  | .Tick id1 _ => id1 = id ∧ IntervalMeasureTime.lastTick g id ≠ 0
  | .Reset id1 => id1 = id
  | .ResetAll => False
  | .GetValue id1 => id1 = id

/-! ## Theorems: `StatValue` -/

namespace StatValue

theorem addAssign_zero (w : Nat) (s : StatValue) : addAssign w s 0 = s := by
  simp [addAssign]

theorem addAssign_of_ne_zero (w : Nat) (s : StatValue) {d : Nat} (hd : d ≠ 0) :
    addAssign w s d =
      { Value := (s.Value + d) % 2 ^ w, MinDelta := min s.MinDelta d,
        MaxDelta := max s.MaxDelta d, NumInc := (s.NumInc + 1) % 2 ^ UINT_BITS } := by
  unfold addAssign
  rw [if_pos hd]
  by_cases h1 : d > s.MaxDelta <;> by_cases h2 : d < s.MinDelta <;>
    simp [h1, h2] <;> omega

theorem addAssignAll_cons (w : Nat) (s : StatValue) (d : Nat) (ds : List Nat) :
    addAssignAll w s (d :: ds) = addAssignAll w (addAssign w s d) ds := rfl

/-- Closed form of a run of `operator+=` with nonzero deltas. -/
theorem addAssignAll_eq (w : Nat) (ds : List Nat) (hnz : ∀ d ∈ ds, d ≠ 0) :
    ∀ s : StatValue, s.Value < 2 ^ w → s.NumInc < 2 ^ UINT_BITS →
      addAssignAll w s ds =
        { Value := (s.Value + ds.sum) % 2 ^ w,
          MinDelta := ds.foldl min s.MinDelta,
          MaxDelta := ds.foldl max s.MaxDelta,
          NumInc := (s.NumInc + ds.length) % 2 ^ UINT_BITS } := by
  induction ds with
  | nil =>
    intro s hv hn
    simp [addAssignAll, Nat.mod_eq_of_lt hv, Nat.mod_eq_of_lt hn]
  | cons d ds ih =>
    intro s hv hn
    have hd : d ≠ 0 := hnz d (List.mem_cons_self d ds)
    have hw : 0 < 2 ^ w := Nat.two_pow_pos _
    have hc : 0 < 2 ^ UINT_BITS := Nat.two_pow_pos _
    rw [addAssignAll_cons, addAssign_of_ne_zero w s hd,
      ih (fun x hx => hnz x (List.mem_cons_of_mem d hx)) _ (Nat.mod_lt _ hw) (Nat.mod_lt _ hc)]
    simp only [List.sum_cons, List.length_cons, List.foldl_cons, Nat.mod_add_mod]
    congr 2 <;> ring_nf

theorem foldl_min_le_init (ds : List Nat) : ∀ a : Nat, ds.foldl min a ≤ a := by
  induction ds with
  | nil => intro a; simp
  | cons d ds ih =>
    intro a
    simp only [List.foldl_cons]
    exact le_trans (ih _) (Nat.min_le_left a d)

theorem foldl_min_le_mem (ds : List Nat) : ∀ a : Nat, ∀ d ∈ ds, ds.foldl min a ≤ d := by
  induction ds with
  | nil => intro a d hd; simp at hd
  | cons x ds ih =>
    intro a d hd
    simp only [List.foldl_cons]
    rcases List.mem_cons.mp hd with rfl | h
    · exact le_trans (foldl_min_le_init ds _) (Nat.min_le_right a d)
    · exact ih _ d h

theorem foldl_min_mem (ds : List Nat) : ∀ a : Nat, ds.foldl min a = a ∨ ds.foldl min a ∈ ds := by
  induction ds with
  | nil => intro a; simp
  | cons x ds ih =>
    intro a
    simp only [List.foldl_cons]
    rcases ih (min a x) with h | h
    · rw [h]
      rcases Nat.le_total a x with hax | hax
      · left; exact Nat.min_eq_left hax
      · right; rw [Nat.min_eq_right hax]; exact List.mem_cons_self x ds
    · right; exact List.mem_cons_of_mem x h

theorem le_foldl_max_init (ds : List Nat) : ∀ a : Nat, a ≤ ds.foldl max a := by
  induction ds with
  | nil => intro a; simp
  | cons d ds ih =>
    intro a
    simp only [List.foldl_cons]
    exact le_trans (Nat.le_max_left a d) (ih _)

theorem mem_le_foldl_max (ds : List Nat) : ∀ a : Nat, ∀ d ∈ ds, d ≤ ds.foldl max a := by
  induction ds with
  | nil => intro a d hd; simp at hd
  | cons x ds ih =>
    intro a d hd
    simp only [List.foldl_cons]
    rcases List.mem_cons.mp hd with rfl | h
    · exact le_trans (Nat.le_max_right a d) (le_foldl_max_init ds _)
    · exact ih _ d h

theorem foldl_max_mem (ds : List Nat) : ∀ a : Nat, ds.foldl max a = a ∨ ds.foldl max a ∈ ds := by
  induction ds with
  | nil => intro a; simp
  | cons x ds ih =>
    intro a
    simp only [List.foldl_cons]
    rcases ih (max a x) with h | h
    · rw [h]
      rcases Nat.le_total a x with hax | hax
      · right; rw [Nat.max_eq_right hax]; exact List.mem_cons_self x ds
      · left; exact Nat.max_eq_left hax
    · right; exact List.mem_cons_of_mem x h

/-- The smallest element of a non-empty list of values below `2 ^ w`, folded from the
initial `MinDelta` of a default-constructed accumulator. -/
theorem foldl_min_sentinel (w : Nat) (ds : List Nat) (hne : ds ≠ [])
    (hlt : ∀ d ∈ ds, d < 2 ^ w) :
    ds.foldl min (2 ^ w - 1) ∈ ds ∧ ∀ d ∈ ds, ds.foldl min (2 ^ w - 1) ≤ d := by
  refine ⟨?_, foldl_min_le_mem ds _⟩
  rcases foldl_min_mem ds (2 ^ w - 1) with h | h
  · obtain ⟨x, hx⟩ := List.exists_mem_of_ne_nil ds hne
    have h1 := foldl_min_le_mem ds (2 ^ w - 1) x hx
    have h2 := hlt x hx
    have : ds.foldl min (2 ^ w - 1) = x := by omega
    rw [this]; exact hx
  · exact h

/-- The largest element of a non-empty list of nonzero values, folded from the initial
`MaxDelta` of a default-constructed accumulator. -/
theorem foldl_max_sentinel (ds : List Nat) (hne : ds ≠ []) (hnz : ∀ d ∈ ds, d ≠ 0) :
    ds.foldl max 0 ∈ ds ∧ ∀ d ∈ ds, d ≤ ds.foldl max 0 := by
  refine ⟨?_, mem_le_foldl_max ds _⟩
  rcases foldl_max_mem ds 0 with h | h
  · obtain ⟨x, hx⟩ := List.exists_mem_of_ne_nil ds hne
    have h1 := mem_le_foldl_max ds 0 x hx
    have h2 := hnz x hx
    omega
  · exact h

/-- What the accessors report after a non-empty run of nonzero deltas, fewer than
`2 ^ 32` of them, on a default-constructed accumulator. -/
theorem accessors_addAssignAll_construct (w : Nat) (hw : UINT_BITS ≤ w) (ds : List Nat)
    (hne : ds ≠ []) (hnz : ∀ d ∈ ds, d ≠ 0) (hn : ds.length < 2 ^ 32) :
    Count w (addAssignAll w (construct w) ds) = ds.length ∧
    Total w (addAssignAll w (construct w) ds) = ds.sum % 2 ^ w ∧
    Min w (addAssignAll w (construct w) ds) = ds.foldl min (2 ^ w - 1) ∧
    Max w (addAssignAll w (construct w) ds) = ds.foldl max 0 ∧
    Avg w (addAssignAll w (construct w) ds) = (ds.sum % 2 ^ w) / ds.length := by
  have hpw : 0 < 2 ^ w := Nat.two_pow_pos _
  have h32 : (2 : Nat) ^ 32 ≤ 2 ^ w := Nat.pow_le_pow_right (by decide) hw
  have hlen : 0 < ds.length := List.length_pos.mpr hne
  have hc : Count w (addAssignAll w (construct w) ds) = ds.length := by
    rw [addAssignAll_eq w ds hnz (construct w) hpw (Nat.two_pow_pos _)]
    simp only [Count, construct, UINT_BITS, Nat.zero_add]
    rw [Nat.mod_eq_of_lt hn, Nat.mod_eq_of_lt (lt_of_lt_of_le hn h32)]
  refine ⟨hc, ?_, ?_, ?_, ?_⟩
  · rw [Total, hc, if_pos hlen, addAssignAll_eq w ds hnz (construct w) hpw
      (Nat.two_pow_pos _)]
    simp [construct]
  · rw [Min, hc, if_pos hlen, addAssignAll_eq w ds hnz (construct w) hpw
      (Nat.two_pow_pos _)]
    simp [construct]
  · rw [Max, hc, if_pos hlen, addAssignAll_eq w ds hnz (construct w) hpw
      (Nat.two_pow_pos _)]
    simp [construct]
  · rw [Avg, hc, if_pos hlen, addAssignAll_eq w ds hnz (construct w) hpw
      (Nat.two_pow_pos _)]
    simp [construct]

theorem assign_eq (w : Nat) (s : StatValue) (v : Nat) :
    assign w s v = { Value := v, MinDelta := 2 ^ w - 1, MaxDelta := 0, NumInc := 0 } := rfl

theorem assign_zero (w : Nat) (s : StatValue) : assign w s 0 = construct w := rfl

theorem Count_construct (w : Nat) : Count w (construct w) = 0 := by
  simp [Count, construct]

end StatValue

/-! ## Theorems: `std::map` -/

namespace StdMap

theorem find_put_self {V : Type} (m : StdMap V) (k : CharPtr) (v : V) :
    find (put m k v) k = some v := by
  induction m with
  | nil => simp [put, find]
  | cons e rest ih =>
    obtain ⟨k', v'⟩ := e
    simp only [put]
    split_ifs with h1 h2
    · simp [find]
    · simp [find]
    · simp [find, ih, Ne.symm h1]

theorem find_put_of_ne {V : Type} (m : StdMap V) (k : CharPtr) (v : V) {k2 : CharPtr}
    (h : k2 ≠ k) : find (put m k v) k2 = find m k2 := by
  induction m with
  | nil => simp [put, find, Ne.symm h]
  | cons e rest ih =>
    obtain ⟨k', v'⟩ := e
    simp only [put]
    split_ifs with h1 h2
    · subst h1; simp [find, Ne.symm h]
    · simp [find, Ne.symm h]
    · simp [find, ih]

theorem find_put {V : Type} (m : StdMap V) (k : CharPtr) (v : V) (k2 : CharPtr) :
    find (put m k v) k2 = if k2 = k then some v else find m k2 := by
  split_ifs with h
  · subst h; exact find_put_self m k2 v
  · exact find_put_of_ne m k v h

theorem put_put {V : Type} (m : StdMap V) (k : CharPtr) (a b : V) :
    put (put m k a) k b = put m k b := by
  induction m with
  | nil => simp [put]
  | cons e rest ih =>
    obtain ⟨k', v'⟩ := e
    simp only [put]
    split_ifs with h1 h2
    · simp [put]
    · simp [put]
    · simp [put, h1, h2, ih]

theorem index_snd {V : Type} (m : StdMap V) (k : CharPtr) (d : V) :
    (index m k d).2 = (find m k).getD d := by
  unfold index
  cases find m k <;> rfl

theorem put_index_fst {V : Type} (m : StdMap V) (k : CharPtr) (d v : V) :
    put (index m k d).1 k v = put m k v := by
  unfold index
  cases find m k
  · exact put_put m k d v
  · rfl

theorem find_index_fst {V : Type} (m : StdMap V) (k : CharPtr) (d : V) (k2 : CharPtr) :
    find (index m k d).1 k2 = if k2 = k then some ((find m k).getD d) else find m k2 := by
  unfold index
  cases h : find m k with
  | none => simp [find_put]
  | some v =>
    split_ifs with hk
    · subst hk; simpa using h
    · rfl

theorem mem_keys_iff {V : Type} (m : StdMap V) (k : CharPtr) :
    k ∈ keys m ↔ find m k ≠ none := by
  induction m with
  | nil => simp [keys, find]
  | cons e rest ih =>
    obtain ⟨k', v'⟩ := e
    by_cases h : k' = k
    · subst h; simp [keys, find]
    · have ih2 : k ∈ List.map Prod.fst rest ↔ find rest k ≠ none := ih
      simp [keys, find, h, Ne.symm h, ih2]

end StdMap

/-! ## Theorems: `IntervalMeasureTime` -/

namespace IntervalMeasureTime

theorem valueOf_eq (w : Nat) (g : IntervalMeasureTime) (id : CharPtr) :
    valueOf w g id = (StdMap.find g.Values id).getD (StatValue.construct w) := by
  simp [valueOf, GetValue, StdMap.index_snd]

theorem Tick_eq (w : Nat) (g : IntervalMeasureTime) (id : CharPtr) (now : Nat) :
    Tick w g id now =
      { Values :=
          if lastTick g id > 0 then
            StdMap.put g.Values id
              (StatValue.addAssign w (valueOf w g id) (usub w now (lastTick g id)))
          else g.Values,
        Timestamps := StdMap.put g.Timestamps id now } := by
  simp only [Tick, StdMap.index_snd, StdMap.put_index_fst, lastTick, valueOf_eq]

theorem Reset_eq (w : Nat) (g : IntervalMeasureTime) (id : CharPtr) :
    Reset w g id =
      { Values := StdMap.put g.Values id (StatValue.construct w),
        Timestamps := StdMap.put g.Timestamps id 0 } := by
  simp only [Reset, StdMap.put_index_fst, StatValue.assign_zero]

theorem ResetAllBody_eq (w : Nat) (g : IntervalMeasureTime) (k : CharPtr) :
    ResetAllBody w g k =
      if StdMap.find g.Values k ≠ none then
        { Values := StdMap.put g.Values k (StatValue.construct w),
          Timestamps := StdMap.put g.Timestamps k 0 }
      else g := by
  unfold ResetAllBody
  cases h : StdMap.find g.Values k with
  | none => simp
  | some v => simp [StdMap.put_index_fst, StatValue.assign_zero]

theorem lastTick_Tick (w : Nat) (g : IntervalMeasureTime) (id : CharPtr) (now : Nat)
    (id2 : CharPtr) :
    lastTick (Tick w g id now) id2 = if id2 = id then now else lastTick g id2 := by
  rw [Tick_eq]
  simp only [lastTick, StdMap.find_put]
  split_ifs <;> rfl

theorem valueOf_Tick (w : Nat) (g : IntervalMeasureTime) (id : CharPtr) (now : Nat)
    (id2 : CharPtr) :
    valueOf w (Tick w g id now) id2 =
      if id2 = id ∧ lastTick g id ≠ 0 then
        StatValue.addAssign w (valueOf w g id) (usub w now (lastTick g id))
      else valueOf w g id2 := by
  rw [Tick_eq]
  by_cases h0 : lastTick g id = 0
  · simp [h0, valueOf_eq]
  · have hpos : lastTick g id > 0 := Nat.pos_of_ne_zero h0
    by_cases hid : id2 = id
    · subst hid
      simp [valueOf_eq, hpos, h0, StdMap.find_put]
    · simp [valueOf_eq, hpos, hid, StdMap.find_put]

theorem find_ResetAllBody_Values (w : Nat) (g : IntervalMeasureTime) (k id : CharPtr) :
    StdMap.find (ResetAllBody w g k).Values id =
      if id = k ∧ StdMap.find g.Values k ≠ none then some (StatValue.construct w)
      else StdMap.find g.Values id := by
  rw [ResetAllBody_eq]
  by_cases hk : StdMap.find g.Values k = none
  · simp [hk]
  · by_cases hid : id = k
    · subst hid; simp [hk, StdMap.find_put]
    · simp [hk, hid, StdMap.find_put]

theorem find_ResetAllBody_Timestamps (w : Nat) (g : IntervalMeasureTime) (k id : CharPtr) :
    StdMap.find (ResetAllBody w g k).Timestamps id =
      if id = k ∧ StdMap.find g.Values k ≠ none then some 0
      else StdMap.find g.Timestamps id := by
  rw [ResetAllBody_eq]
  by_cases hk : StdMap.find g.Values k = none
  · simp [hk]
  · by_cases hid : id = k
    · subst hid; simp [hk, StdMap.find_put]
    · simp [hk, hid, StdMap.find_put]

/-- The loop of `Reset()` run over any list of keys. -/
theorem find_foldl_ResetAllBody (w : Nat) (ks : List CharPtr) (id : CharPtr) :
    ∀ g : IntervalMeasureTime,
      StdMap.find (ks.foldl (ResetAllBody w) g).Values id =
          (if id ∈ ks ∧ StdMap.find g.Values id ≠ none then some (StatValue.construct w)
           else StdMap.find g.Values id) ∧
      StdMap.find (ks.foldl (ResetAllBody w) g).Timestamps id =
          (if id ∈ ks ∧ StdMap.find g.Values id ≠ none then some 0
           else StdMap.find g.Timestamps id) := by
  induction ks with
  | nil => intro g; simp
  | cons k ks ih =>
    intro g
    simp only [List.foldl_cons]
    obtain ⟨h1, h2⟩ := ih (ResetAllBody w g k)
    rw [h1, h2, find_ResetAllBody_Values, find_ResetAllBody_Timestamps]
    by_cases hid : id = k
    · subst hid
      by_cases hv : StdMap.find g.Values id = none
      · simp [hv]
      · simp [hv]
    · by_cases hv : StdMap.find g.Values id = none
      · simp [hv, hid]
      · simp [hv, hid]

theorem find_ResetAll_Values (w : Nat) (g : IntervalMeasureTime) (id : CharPtr) :
    StdMap.find (ResetAll w g).Values id =
      if StdMap.find g.Values id ≠ none then some (StatValue.construct w) else none := by
  unfold ResetAll
  rw [(find_foldl_ResetAllBody w (StdMap.keys g.Values) id g).1]
  by_cases hv : StdMap.find g.Values id = none
  · simp [hv]
  · have hk : id ∈ StdMap.keys g.Values := (StdMap.mem_keys_iff g.Values id).mpr hv
    simp [hv, hk]

theorem find_ResetAll_Timestamps (w : Nat) (g : IntervalMeasureTime) (id : CharPtr) :
    StdMap.find (ResetAll w g).Timestamps id =
      if StdMap.find g.Values id ≠ none then some 0 else StdMap.find g.Timestamps id := by
  unfold ResetAll
  rw [(find_foldl_ResetAllBody w (StdMap.keys g.Values) id g).2]
  by_cases hv : StdMap.find g.Values id = none
  · simp [hv]
  · have hk : id ∈ StdMap.keys g.Values := (StdMap.mem_keys_iff g.Values id).mpr hv
    simp [hv, hk]

theorem find_Tick_Timestamps (w : Nat) (g : IntervalMeasureTime) (id : CharPtr) (now : Nat)
    (id2 : CharPtr) :
    StdMap.find (Tick w g id now).Timestamps id2 =
      if id2 = id then some now else StdMap.find g.Timestamps id2 := by
  rw [Tick_eq]; exact StdMap.find_put _ _ _ _

theorem find_Tick_Values (w : Nat) (g : IntervalMeasureTime) (id : CharPtr) (now : Nat)
    (id2 : CharPtr) :
    StdMap.find (Tick w g id now).Values id2 =
      if id2 = id ∧ lastTick g id ≠ 0 then
        some (StatValue.addAssign w (valueOf w g id) (usub w now (lastTick g id)))
      else StdMap.find g.Values id2 := by
  rw [Tick_eq]
  by_cases h0 : lastTick g id = 0
  · simp [h0]
  · have hpos : lastTick g id > 0 := Nat.pos_of_ne_zero h0
    by_cases hid : id2 = id
    · subst hid; simp [hpos, h0, StdMap.find_put]
    · simp [hpos, hid, StdMap.find_put]

theorem find_Reset_Values (w : Nat) (g : IntervalMeasureTime) (id id2 : CharPtr) :
    StdMap.find (Reset w g id).Values id2 =
      if id2 = id then some (StatValue.construct w) else StdMap.find g.Values id2 := by
  rw [Reset_eq]; exact StdMap.find_put _ _ _ _

theorem find_Reset_Timestamps (w : Nat) (g : IntervalMeasureTime) (id id2 : CharPtr) :
    StdMap.find (Reset w g id).Timestamps id2 =
      if id2 = id then some 0 else StdMap.find g.Timestamps id2 := by
  rw [Reset_eq]; exact StdMap.find_put _ _ _ _

theorem find_GetValue_Values (w : Nat) (g : IntervalMeasureTime) (id id2 : CharPtr) :
    StdMap.find (GetValue w g id).1.Values id2 =
      if id2 = id then some (valueOf w g id) else StdMap.find g.Values id2 := by
  simp only [GetValue, StdMap.find_index_fst, valueOf_eq]

theorem GetValue_Timestamps (w : Nat) (g : IntervalMeasureTime) (id : CharPtr) :
    (GetValue w g id).1.Timestamps = g.Timestamps := rfl

end IntervalMeasureTime

/-! ## Theorems: call sequences -/

open IntervalMeasureTime

theorem run_cons (w : Nat) (g : IntervalMeasureTime) (c : Call) (calls : List Call) :
    run w g (c :: calls) = run w (Call.apply w g c) calls := rfl

/-- A call made with another identifier leaves an absent identifier absent from both
maps. -/
theorem absent_apply (w : Nat) (g : IntervalMeasureTime) (c : Call) (id : CharPtr)
    (hc : c.target ≠ some id) (hv : StdMap.find g.Values id = none)
    (ht : StdMap.find g.Timestamps id = none) :
    StdMap.find (Call.apply w g c).Values id = none ∧
      StdMap.find (Call.apply w g c).Timestamps id = none := by
  cases c with
  | Tick id1 now =>
    have hne : id ≠ id1 := fun h => hc (by simp [Call.target, h])
    simp [Call.apply, find_Tick_Values, find_Tick_Timestamps, hne, hv, ht]
  | Reset id1 =>
    have hne : id ≠ id1 := fun h => hc (by simp [Call.target, h])
    simp [Call.apply, find_Reset_Values, find_Reset_Timestamps, hne, hv, ht]
  | ResetAll =>
    simp [Call.apply, find_ResetAll_Values, find_ResetAll_Timestamps, hv, ht]
  | GetValue id1 =>
    have hne : id ≠ id1 := fun h => hc (by simp [Call.target, h])
    simp [Call.apply, find_GetValue_Values, GetValue_Timestamps, hne, hv, ht]

theorem absent_run (w : Nat) (id : CharPtr) (calls : List Call) :
    ∀ g : IntervalMeasureTime, (∀ c ∈ calls, c.target ≠ some id) →
      StdMap.find g.Values id = none → StdMap.find g.Timestamps id = none →
      StdMap.find (run w g calls).Values id = none ∧
        StdMap.find (run w g calls).Timestamps id = none := by
  induction calls with
  | nil => intro g _ hv ht; exact ⟨hv, ht⟩
  | cons c calls ih =>
    intro g hc hv ht
    rw [run_cons]
    obtain ⟨h1, h2⟩ := absent_apply w g c id (hc c (List.mem_cons_self c calls)) hv ht
    exact ih _ (fun x hx => hc x (List.mem_cons_of_mem c hx)) h1 h2

theorem NeverTicked_of_absent (w : Nat) (g : IntervalMeasureTime) (id : CharPtr)
    (hv : StdMap.find g.Values id = none) (ht : StdMap.find g.Timestamps id = none) :
    NeverTicked w g id := by
  simp [NeverTicked, lastTick, valueOf_eq, hv, ht]

theorem NeverTicked_empty (w : Nat) (id : CharPtr) : NeverTicked w empty id :=
  NeverTicked_of_absent w empty id rfl rfl

theorem NeverTicked_Reset (w : Nat) (g : IntervalMeasureTime) (id : CharPtr) :
    NeverTicked w (Reset w g id) id := by
  simp [NeverTicked, lastTick, valueOf_eq, find_Reset_Values, find_Reset_Timestamps]

/-- Every call other than a `Tick` of `id` keeps `id` in the never-ticked state. -/
theorem NeverTicked_apply (w : Nat) (g : IntervalMeasureTime) (c : Call) (id : CharPtr)
    (hc : ∀ now, c ≠ Call.Tick id now) (h : NeverTicked w g id) :
    NeverTicked w (Call.apply w g c) id := by
  obtain ⟨h1, h2⟩ := h
  cases c with
  | Tick id1 now =>
    have hne : id ≠ id1 := fun e => hc now (by rw [e])
    refine ⟨?_, ?_⟩
    · simp [Call.apply, lastTick_Tick, hne, h1]
    · simp [Call.apply, valueOf_Tick, hne, h2]
  | Reset id1 =>
    by_cases hid : id = id1
    · subst hid; exact NeverTicked_Reset w g id
    · rw [lastTick] at h1
      rw [valueOf_eq] at h2
      simp [NeverTicked, Call.apply, lastTick, valueOf_eq, find_Reset_Values,
        find_Reset_Timestamps, hid, h1, h2]
  | ResetAll =>
    rw [lastTick] at h1
    refine ⟨?_, ?_⟩
    · simp only [Call.apply, lastTick, find_ResetAll_Timestamps]
      split_ifs
      · rfl
      · exact h1
    · simp only [Call.apply, valueOf_eq, find_ResetAll_Values]
      split_ifs <;> rfl
  | GetValue id1 =>
    refine ⟨?_, ?_⟩
    · simpa [Call.apply, lastTick, GetValue_Timestamps] using h1
    · simp only [Call.apply, valueOf_eq, find_GetValue_Values]
      rw [valueOf_eq] at h2
      split_ifs with hid
      · subst hid; simpa using h2
      · exact h2

theorem NeverTicked_run (w : Nat) (id : CharPtr) (calls : List Call) :
    ∀ g : IntervalMeasureTime, (∀ c ∈ calls, ∀ now, c ≠ Call.Tick id now) →
      NeverTicked w g id → NeverTicked w (run w g calls) id := by
  induction calls with
  | nil => intro g _ h; exact h
  | cons c calls ih =>
    intro g hc h
    rw [run_cons]
    exact ih _ (fun x hx => hc x (List.mem_cons_of_mem c hx))
      (NeverTicked_apply w g c id (hc c (List.mem_cons_self c calls)) h)

/-! ## Theorems: runs of ticks -/

theorem usub_of_le (w a b : Nat) (hab : b ≤ a) (ha : a < 2 ^ w) : usub w a b = a - b := by
  unfold usub
  have h : a + 2 ^ w - b = (a - b) + 2 ^ w := by omega
  rw [h, Nat.add_mod_right, Nat.mod_eq_of_lt]
  omega

/-- The unsigned difference recovers an advance `d` of the clock, also when the reading
wrapped around in between. -/
theorem usub_add_mod (w t d : Nat) (ht : t < 2 ^ w) (hd : d < 2 ^ w) :
    usub w ((t + d) % 2 ^ w) t = d := by
  unfold usub
  by_cases h : t + d < 2 ^ w
  · rw [Nat.mod_eq_of_lt h]
    have e : t + d + 2 ^ w - t = d + 2 ^ w := by omega
    rw [e, Nat.add_mod_right, Nat.mod_eq_of_lt hd]
  · have h1 : (t + d) % 2 ^ w = t + d - 2 ^ w := by
      rw [Nat.mod_eq_sub_mod (by omega), Nat.mod_eq_of_lt (by omega)]
    rw [h1]
    have e : t + d - 2 ^ w + 2 ^ w - t = d := by omega
    rw [e, Nat.mod_eq_of_lt hd]

theorem gaps_cons_cons (a b : Nat) (rest : List Nat) :
    gaps (a :: b :: rest) = (b - a) :: gaps (b :: rest) := rfl

theorem length_gaps_cons (rest : List Nat) :
    ∀ t0 : Nat, (gaps (t0 :: rest)).length = rest.length := by
  induction rest with
  | nil => intro t0; rfl
  | cons r rest ih => intro t0; rw [gaps_cons_cons, List.length_cons, ih r, List.length_cons]

theorem gaps_ne_zero (rest : List Nat) :
    ∀ t0 : Nat, List.Chain (· < ·) t0 rest → ∀ d ∈ gaps (t0 :: rest), d ≠ 0 := by
  induction rest with
  | nil => intro t0 _ d hd; simp [gaps] at hd
  | cons r rest ih =>
    intro t0 hch d hd
    obtain ⟨h1, h2⟩ := List.chain_cons.mp hch
    rw [gaps_cons_cons] at hd
    rcases List.mem_cons.mp hd with rfl | h
    · omega
    · exact ih r h2 d h

theorem gaps_lt (w : Nat) (rest : List Nat) :
    ∀ t0 : Nat, (∀ t ∈ rest, t < 2 ^ w) → ∀ d ∈ gaps (t0 :: rest), d < 2 ^ w := by
  induction rest with
  | nil => intro t0 _ d hd; simp [gaps] at hd
  | cons r rest ih =>
    intro t0 hlt d hd
    rw [gaps_cons_cons] at hd
    rcases List.mem_cons.mp hd with rfl | h
    · have := hlt r (List.mem_cons_self r rest); omega
    · exact ih r (fun t ht => hlt t (List.mem_cons_of_mem r ht)) d h

/-- The gaps of an increasing run telescope. -/
theorem sum_gaps (rest : List Nat) :
    ∀ t0 : Nat, List.Chain (· < ·) t0 rest →
      t0 + (gaps (t0 :: rest)).sum = rest.getLastD t0 := by
  induction rest with
  | nil => intro t0 _; simp [gaps, List.getLastD_nil]
  | cons r rest ih =>
    intro t0 hch
    obtain ⟨h1, h2⟩ := List.chain_cons.mp hch
    rw [gaps_cons_cons, List.sum_cons, List.getLastD_cons, ← ih r h2]
    omega

theorem tickAll_cons (w : Nat) (g : IntervalMeasureTime) (id : CharPtr) (t : Nat)
    (rest : List Nat) :
    tickAll w g id (t :: rest) = tickAll w (Tick w g id t) id rest := rfl

/-- Ticks at increasing readings on an identifier whose last tick was at `t0 > 0`
accumulate the consecutive gaps. -/
theorem valueOf_tickAll_ticked (w : Nat) (id : CharPtr) (rest : List Nat) :
    ∀ (g : IntervalMeasureTime) (t0 : Nat), lastTick g id = t0 → 0 < t0 →
      List.Chain (· < ·) t0 rest → (∀ t ∈ rest, t < 2 ^ w) →
      valueOf w (tickAll w g id rest) id =
        StatValue.addAssignAll w (valueOf w g id) (gaps (t0 :: rest)) := by
  induction rest with
  | nil => intro g t0 _ _ _ _; rfl
  | cons r rest ih =>
    intro g t0 hlast hpos hch hlt
    obtain ⟨h1, h2⟩ := List.chain_cons.mp hch
    have hr : r < 2 ^ w := hlt r (List.mem_cons_self r rest)
    have hne : lastTick g id ≠ 0 := by omega
    rw [tickAll_cons, ih (Tick w g id r) r (by simp [lastTick_Tick]) (by omega) h2
      (fun t ht => hlt t (List.mem_cons_of_mem r ht)), gaps_cons_cons,
      StatValue.addAssignAll_cons, valueOf_Tick, if_pos ⟨rfl, hne⟩, hlast,
      usub_of_le w r t0 (le_of_lt h1) hr]

/-- Ticks at increasing positive readings on a never-ticked identifier: the first
tick is the baseline, the others accumulate the consecutive gaps. -/
theorem valueOf_tickAll_neverTicked (w : Nat) (g : IntervalMeasureTime) (id : CharPtr)
    (t0 : Nat) (rest : List Nat) (h : NeverTicked w g id) (hpos : 0 < t0)
    (hch : List.Chain (· < ·) t0 rest) (hlt : ∀ t ∈ rest, t < 2 ^ w) :
    valueOf w (tickAll w g id (t0 :: rest)) id =
      StatValue.addAssignAll w (StatValue.construct w) (gaps (t0 :: rest)) := by
  obtain ⟨h1, h2⟩ := h
  rw [tickAll_cons, valueOf_tickAll_ticked w id rest (Tick w g id t0) t0
    (by simp [lastTick_Tick]) hpos hch hlt, valueOf_Tick, h1, h2]
  simp

/-- The count reported after ticks at increasing positive readings on a never-ticked
identifier is the number of gaps reduced to the width of `NumInc`, then converted. -/
theorem Count_tickAll_neverTicked (w : Nat) (g : IntervalMeasureTime) (id : CharPtr)
    (t0 : Nat) (rest : List Nat) (h : NeverTicked w g id) (hpos : 0 < t0)
    (hch : List.Chain (· < ·) t0 rest) (hlt : ∀ t ∈ rest, t < 2 ^ w) :
    StatValue.Count w (valueOf w (tickAll w g id (t0 :: rest)) id)
      = rest.length % 2 ^ UINT_BITS % 2 ^ w := by
  rw [valueOf_tickAll_neverTicked w g id t0 rest h hpos hch hlt,
    StatValue.addAssignAll_eq w _ (gaps_ne_zero rest t0 hch) _ (Nat.two_pow_pos w)
      (Nat.two_pow_pos UINT_BITS)]
  simp only [StatValue.Count, StatValue.construct, length_gaps_cons, Nat.zero_add]

/-! ## Claims -/

/-- C1: a non-empty run of nonzero `unsigned long` deltas, fewer than `2 ^ 32` of them,
accumulated with `operator+=` into a default-constructed `StatValue<unsigned long>`:
`Count()` is the number of deltas, `Total()` is their sum modulo `2 ^ w` (their sum when
it does not overflow), `Min()` is the smallest delta and `Max()` the largest. -/
theorem C1_accumulated_stats (w : Nat) (ds : List Nat) (hw : UINT_BITS ≤ w) (hne : ds ≠ [])
    (hnz : ∀ d ∈ ds, d ≠ 0) (hlt : ∀ d ∈ ds, d < 2 ^ w) (hn : ds.length < 2 ^ 32) :
    StatValue.Count w (StatValue.addAssignAll w (StatValue.construct w) ds) = ds.length ∧
    StatValue.Total w (StatValue.addAssignAll w (StatValue.construct w) ds)
      = ds.sum % 2 ^ w ∧
    (ds.sum < 2 ^ w →
      StatValue.Total w (StatValue.addAssignAll w (StatValue.construct w) ds) = ds.sum) ∧
    (StatValue.Min w (StatValue.addAssignAll w (StatValue.construct w) ds) ∈ ds ∧
      ∀ d ∈ ds, StatValue.Min w (StatValue.addAssignAll w (StatValue.construct w) ds) ≤ d) ∧
    (StatValue.Max w (StatValue.addAssignAll w (StatValue.construct w) ds) ∈ ds ∧
      ∀ d ∈ ds, d ≤ StatValue.Max w (StatValue.addAssignAll w (StatValue.construct w) ds)) := by
  obtain ⟨hc, ht, hmin, hmax, _⟩ :=
    StatValue.accessors_addAssignAll_construct w hw ds hne hnz hn
  refine ⟨hc, ht, ?_, ?_, ?_⟩
  · intro hsum
    rw [ht, Nat.mod_eq_of_lt hsum]
  · rw [hmin]
    exact StatValue.foldl_min_sentinel w ds hne hlt
  · rw [hmax]
    exact StatValue.foldl_max_sentinel ds hne hnz

/-- C1 at the deltas 5, 3, 9 on a 32-bit `unsigned long`: count 3, total 17, min 3,
max 9. -/
theorem C1_accumulated_stats_witness :
    StatValue.Count 32 (StatValue.addAssignAll 32 (StatValue.construct 32) [5, 3, 9]) = 3 ∧
    StatValue.Total 32 (StatValue.addAssignAll 32 (StatValue.construct 32) [5, 3, 9]) = 17 ∧
    StatValue.Min 32 (StatValue.addAssignAll 32 (StatValue.construct 32) [5, 3, 9]) = 3 ∧
    StatValue.Max 32 (StatValue.addAssignAll 32 (StatValue.construct 32) [5, 3, 9]) = 9 := by
  obtain ⟨hc, _, ht, ⟨hm1, hm2⟩, ⟨hM1, hM2⟩⟩ :=
    C1_accumulated_stats 32 [5, 3, 9] (by decide) (by decide) (by decide) (by decide)
      (by decide)
  refine ⟨hc, ht (by decide), ?_, ?_⟩
  · have h3 := hm2 3 (by decide)
    have h := List.mem_cons.mp hm1
    rcases h with h | h
    · omega
    · rcases List.mem_cons.mp h with h | h
      · exact h
      · have := List.mem_singleton.mp h; omega
  · have h9 := hM2 9 (by decide)
    have h := List.mem_cons.mp hM1
    rcases h with h | h
    · omega
    · rcases List.mem_cons.mp h with h | h
      · omega
      · exact List.mem_singleton.mp h

/-- C2: `s += 0` leaves every field of `s` unchanged, whatever the fields hold, so
`Count()`, `Total()`, `Min()`, `Max()` and `Avg()` report the same values as before. -/
theorem C2_addAssign_zero_is_noop (w : Nat) (s : StatValue) :
    StatValue.addAssign w s 0 = s ∧
    StatValue.Count w (StatValue.addAssign w s 0) = StatValue.Count w s ∧
    StatValue.Total w (StatValue.addAssign w s 0) = StatValue.Total w s ∧
    StatValue.Min w (StatValue.addAssign w s 0) = StatValue.Min w s ∧
    StatValue.Max w (StatValue.addAssign w s 0) = StatValue.Max w s ∧
    StatValue.Avg w (StatValue.addAssign w s 0) = StatValue.Avg w s := by
  rw [StatValue.addAssign_zero]
  exact ⟨rfl, rfl, rfl, rfl, rfl, rfl⟩

/-- C3: `Tick(id)` at clock reading `now`. When the stored last-tick timestamp of `id`
is 0 (also when `id` has no entry) the `Values` map, hence the accumulator of `id`, is
unchanged; otherwise the unsigned difference `now - lastTick[id]` is accumulated into
`Values[id]` with `operator+=`. In both cases `Timestamps[id]` is `now` afterwards. -/
theorem C3_Tick_effect (w : Nat) (g : IntervalMeasureTime) (id : CharPtr) (now : Nat) :
    (Tick w g id now).Values =
      (if lastTick g id = 0 then g.Values
       else StdMap.put g.Values id
         (StatValue.addAssign w (valueOf w g id) (usub w now (lastTick g id)))) ∧
    valueOf w (Tick w g id now) id =
      (if lastTick g id = 0 then valueOf w g id
       else StatValue.addAssign w (valueOf w g id) (usub w now (lastTick g id))) ∧
    StdMap.find (Tick w g id now).Timestamps id = some now ∧
    lastTick (Tick w g id now) id = now := by
  refine ⟨?_, ?_, ?_, ?_⟩
  · rw [Tick_eq]
    by_cases h0 : lastTick g id = 0
    · simp [h0]
    · simp [h0, Nat.pos_of_ne_zero h0]
  · rw [valueOf_Tick]
    by_cases h0 : lastTick g id = 0
    · simp [h0]
    · simp [h0]
  · simp [find_Tick_Timestamps]
  · simp [lastTick_Tick]

/-- C4, as stated, fails at the clock reading `t = 0`: on the empty maps a first
`Tick(7)` at reading 0 stores the timestamp 0, which is the mark of "never ticked", so
the second `Tick(7)` at reading `0 + 5` accumulates nothing and `Count()` is 0, not 1. -/
theorem C4_first_tick_at_zero_counterexample :
    StatValue.Count 32 (valueOf 32 (Tick 32 (Tick 32 empty 7 0) 7 (0 + 5)) 7) = 0 ∧
    StatValue.Count 32 (valueOf 32 (Tick 32 (Tick 32 empty 7 0) 7 (0 + 5)) 7) ≠ 1 := by
  decide

/-- C4 (amended): for an identifier that was not ticked since program start or since
its last `Reset(id)`, every nonzero clock reading `t` and every advance `Δ > 0` (both
`unsigned long`): after the first `Tick(id)` at reading `t` the accumulator of `id` has
`Count() == 0`, and after a second `Tick(id)` at reading `t + Δ` (wrapped to `w` bits)
it has accumulated the single delta `Δ`: `Count() == 1` and `Total() == Δ`. -/
theorem C4_first_tick_baseline_second_accumulates (w : Nat) (id : CharPtr)
    (g0 : IntervalMeasureTime) (calls : List Call) (t Δ : Nat)
    (hstart : g0 = empty ∨ ∃ g1, g0 = Reset w g1 id)
    (hcalls : ∀ c ∈ calls, ∀ now, c ≠ Call.Tick id now)
    (ht0 : t ≠ 0) (ht : t < 2 ^ w) (hΔ0 : 0 < Δ) (hΔ : Δ < 2 ^ w) :
    StatValue.Count w (valueOf w (Tick w (run w g0 calls) id t) id) = 0 ∧
    valueOf w (Tick w (Tick w (run w g0 calls) id t) id ((t + Δ) % 2 ^ w)) id
      = StatValue.addAssign w (StatValue.construct w) Δ ∧
    StatValue.Count w
      (valueOf w (Tick w (Tick w (run w g0 calls) id t) id ((t + Δ) % 2 ^ w)) id) = 1 ∧
    StatValue.Total w
      (valueOf w (Tick w (Tick w (run w g0 calls) id t) id ((t + Δ) % 2 ^ w)) id) = Δ := by
  have hnt0 : NeverTicked w g0 id := by
    rcases hstart with h | ⟨g1, h⟩
    · rw [h]; exact NeverTicked_empty w id
    · rw [h]; exact NeverTicked_Reset w g1 id
  obtain ⟨h1, h2⟩ := NeverTicked_run w id calls g0 hcalls hnt0
  have hv1 : valueOf w (Tick w (run w g0 calls) id t) id = StatValue.construct w := by
    rw [valueOf_Tick, h1, h2]; simp
  have hv2 : valueOf w (Tick w (Tick w (run w g0 calls) id t) id ((t + Δ) % 2 ^ w)) id
      = StatValue.addAssign w (StatValue.construct w) Δ := by
    rw [valueOf_Tick, lastTick_Tick, if_pos rfl, if_pos ⟨rfl, ht0⟩, hv1,
      usub_add_mod w t Δ ht hΔ]
  have hΔne : Δ ≠ 0 := by omega
  have h2w : 2 ≤ 2 ^ w := by omega
  have hone : 1 % 2 ^ w = 1 := Nat.mod_eq_of_lt (by omega)
  refine ⟨?_, hv2, ?_, ?_⟩
  · rw [hv1]; exact StatValue.Count_construct w
  · rw [hv2, StatValue.addAssign_of_ne_zero w _ hΔne]
    simp [StatValue.Count, StatValue.construct, UINT_BITS, hone]
  · rw [hv2, StatValue.addAssign_of_ne_zero w _ hΔne]
    simp [StatValue.Total, StatValue.Count, StatValue.construct, UINT_BITS, hone,
      Nat.mod_eq_of_lt hΔ]

/-- C4 (amended) on 32 bits, after `Tick(3)`, `Reset(7)`, `GetValue(7)` and `Reset()`:
`Tick(7)` at 100 and then at 100 + 80 gives count 1 and total 80. -/
theorem C4_first_tick_baseline_second_accumulates_witness :
    StatValue.Count 32 (valueOf 32 (Tick 32 (run 32 empty
      [Call.Tick 3 40, Call.Reset 7, Call.GetValue 7, Call.ResetAll]) 7 100) 7) = 0 ∧
    StatValue.Count 32 (valueOf 32 (Tick 32 (Tick 32 (run 32 empty
      [Call.Tick 3 40, Call.Reset 7, Call.GetValue 7, Call.ResetAll]) 7 100) 7
        ((100 + 80) % 2 ^ 32)) 7) = 1 ∧
    StatValue.Total 32 (valueOf 32 (Tick 32 (Tick 32 (run 32 empty
      [Call.Tick 3 40, Call.Reset 7, Call.GetValue 7, Call.ResetAll]) 7 100) 7
        ((100 + 80) % 2 ^ 32)) 7) = 80 := by
  obtain ⟨h1, _, h3, h4⟩ :=
    C4_first_tick_baseline_second_accumulates 32 7 empty
      [Call.Tick 3 40, Call.Reset 7, Call.GetValue 7, Call.ResetAll] 100 80
      (Or.inl rfl) (by simp) (by decide) (by decide) (by decide) (by decide)
  exact ⟨h1, h3, h4⟩

/-- C5, as stated, fails when `unsigned long` is wider than `unsigned int`: with a
64-bit clock, `Tick(7)` at the `2 ^ 32 + 1` readings `1, 2, ..., 2 ^ 32 + 1` (strictly
increasing, positive, no clock wrap-around) on the empty maps accumulates `n = 2 ^ 32`
gaps, the 32-bit `NumInc` wraps, and `Count()` is 0 instead of `n`. -/
theorem C5_count_wraps_counterexample :
    List.Chain' (· < ·) (1 :: List.range' (1 + 1) (2 ^ 32)) ∧
    (∀ t ∈ 1 :: List.range' (1 + 1) (2 ^ 32), 0 < t ∧ t < 2 ^ 64) ∧
    (List.range' (1 + 1) (2 ^ 32)).length = 2 ^ 32 ∧
    StatValue.Count 64
      (valueOf 64 (tickAll 64 empty 7 (1 :: List.range' (1 + 1) (2 ^ 32))) 7) = 0 ∧
    StatValue.Count 64
      (valueOf 64 (tickAll 64 empty 7 (1 :: List.range' (1 + 1) (2 ^ 32))) 7)
        ≠ (List.range' (1 + 1) (2 ^ 32)).length := by
  have hch : List.Chain (· < ·) 1 (List.range' (1 + 1) (2 ^ 32)) :=
    List.chain_lt_range' 1 (2 ^ 32) Nat.one_pos
  have hmem : ∀ t ∈ List.range' (1 + 1) (2 ^ 32), 0 < t ∧ t < 2 ^ 64 := by
    intro t ht
    have h := List.mem_range'_1.mp ht
    have e32 : (2 : Nat) ^ 32 = 4294967296 := by norm_num
    have e64 : (2 : Nat) ^ 64 = 18446744073709551616 := by norm_num
    omega
  have hlen : (List.range' (1 + 1) (2 ^ 32)).length = 2 ^ 32 := List.length_range' _ _ _
  have hcount : StatValue.Count 64
      (valueOf 64 (tickAll 64 empty 7 (1 :: List.range' (1 + 1) (2 ^ 32))) 7) = 0 := by
    rw [Count_tickAll_neverTicked 64 empty 7 1 _ (NeverTicked_empty 64 7) Nat.one_pos hch
        (fun t ht => (hmem t ht).2), hlen]
    unfold UINT_BITS
    rw [Nat.mod_self, Nat.zero_mod]
  refine ⟨hch, ?_, hlen, hcount, ?_⟩
  · intro t ht
    rcases List.mem_cons.mp ht with h | h
    · rw [h]; exact ⟨Nat.one_pos, Nat.one_lt_two_pow (by decide)⟩
    · exact hmem t h
  · rw [hcount, hlen]
    exact Nat.ne_of_lt (Nat.two_pow_pos 32)

/-- C5 (amended): `Tick(id)` called at strictly increasing positive `unsigned long`
readings `t0 < t1 < ... < tn`, `1 ≤ n < 2 ^ 32`, on an identifier with no entry in
either map: `Count()` is `n`, `Total()` is `tn - t0`, `Min()` is the smallest
consecutive gap, `Max()` the largest, and `Avg()` is `(tn - t0) / n`. -/
theorem C5_tick_sequence_stats (w : Nat) (g : IntervalMeasureTime) (id : CharPtr)
    (t0 : Nat) (rest : List Nat) (hw : UINT_BITS ≤ w)
    (hv : StdMap.find g.Values id = none) (hts : StdMap.find g.Timestamps id = none)
    (hpos : 0 < t0) (hinc : List.Chain' (· < ·) (t0 :: rest))
    (hlt : ∀ t ∈ t0 :: rest, t < 2 ^ w) (hne : rest ≠ []) (hn : rest.length < 2 ^ 32) :
    StatValue.Count w (valueOf w (tickAll w g id (t0 :: rest)) id) = rest.length ∧
    StatValue.Total w (valueOf w (tickAll w g id (t0 :: rest)) id)
      = rest.getLastD t0 - t0 ∧
    (StatValue.Min w (valueOf w (tickAll w g id (t0 :: rest)) id) ∈ gaps (t0 :: rest) ∧
      ∀ d ∈ gaps (t0 :: rest),
        StatValue.Min w (valueOf w (tickAll w g id (t0 :: rest)) id) ≤ d) ∧
    (StatValue.Max w (valueOf w (tickAll w g id (t0 :: rest)) id) ∈ gaps (t0 :: rest) ∧
      ∀ d ∈ gaps (t0 :: rest),
        d ≤ StatValue.Max w (valueOf w (tickAll w g id (t0 :: rest)) id)) ∧
    StatValue.Avg w (valueOf w (tickAll w g id (t0 :: rest)) id)
      = (rest.getLastD t0 - t0) / rest.length := by
  have hch : List.Chain (· < ·) t0 rest := hinc
  have hrest : ∀ t ∈ rest, t < 2 ^ w := fun t ht => hlt t (List.mem_cons_of_mem t0 ht)
  have hval := valueOf_tickAll_neverTicked w g id t0 rest
    (NeverTicked_of_absent w g id hv hts) hpos hch hrest
  have hlen := length_gaps_cons rest t0
  have hgne : gaps (t0 :: rest) ≠ [] := by
    intro h
    rw [h] at hlen
    exact hne (List.length_eq_zero.mp hlen.symm)
  have hnz := gaps_ne_zero rest t0 hch
  have hglt := gaps_lt w rest t0 hrest
  have hsum := sum_gaps rest t0 hch
  have hlast : rest.getLastD t0 < 2 ^ w := hlt _ (List.getLastD_mem_cons rest t0)
  have hs : (gaps (t0 :: rest)).sum = rest.getLastD t0 - t0 := by omega
  have hmod : (gaps (t0 :: rest)).sum % 2 ^ w = rest.getLastD t0 - t0 := by
    rw [Nat.mod_eq_of_lt (by omega), hs]
  obtain ⟨hc, ht, hmin, hmax, havg⟩ :=
    StatValue.accessors_addAssignAll_construct w hw (gaps (t0 :: rest)) hgne hnz
      (by rw [hlen]; exact hn)
  rw [hval]
  refine ⟨by rw [hc, hlen], by rw [ht, hmod], ?_, ?_, by rw [havg, hmod, hlen]⟩
  · rw [hmin]
    exact StatValue.foldl_min_sentinel w _ hgne hglt
  · rw [hmax]
    exact StatValue.foldl_max_sentinel _ hgne hnz

/-- C5 (amended) at the readings 100, 180, 230 on 32 bits: count 2, total 130, min 50,
max 80, average 65. -/
theorem C5_tick_sequence_stats_witness :
    StatValue.Count 32 (valueOf 32 (tickAll 32 empty 7 [100, 180, 230]) 7) = 2 ∧
    StatValue.Total 32 (valueOf 32 (tickAll 32 empty 7 [100, 180, 230]) 7) = 130 ∧
    StatValue.Min 32 (valueOf 32 (tickAll 32 empty 7 [100, 180, 230]) 7) = 50 ∧
    StatValue.Max 32 (valueOf 32 (tickAll 32 empty 7 [100, 180, 230]) 7) = 80 ∧
    StatValue.Avg 32 (valueOf 32 (tickAll 32 empty 7 [100, 180, 230]) 7) = 65 := by
  obtain ⟨hc, ht, ⟨hm1, hm2⟩, ⟨hM1, hM2⟩, ha⟩ :=
    C5_tick_sequence_stats 32 empty 7 100 [180, 230] (by decide) rfl rfl (by decide)
      (by simp) (by decide) (by decide) (by decide)
  have hg : gaps [100, 180, 230] = [80, 50] := by decide
  rw [hg] at hm1 hm2 hM1 hM2
  refine ⟨hc, ht, ?_, ?_, ha⟩
  · have h50 := hm2 50 (by decide)
    rcases List.mem_cons.mp hm1 with h | h
    · omega
    · exact List.mem_singleton.mp h
  · have h80 := hM2 80 (by decide)
    rcases List.mem_cons.mp hM1 with h | h
    · exact h
    · have := List.mem_singleton.mp h; omega

/-- C6: after `Reset(id)`, from any state of the maps, `GetValue(id)` refers to an
accumulator that reads as default-constructed (`Count()`, `Total()`, `Min()`, `Max()`
all 0), the last-tick timestamp of `id` is 0, and the next `Tick(id)`, whatever the clock
reads, leaves the `Values` map unchanged and only stores the reading. -/
theorem C6_Reset_id (w : Nat) (g : IntervalMeasureTime) (id : CharPtr) (now : Nat) :
    (GetValue w (Reset w g id) id).2 = StatValue.construct w ∧
    StatValue.Count w (GetValue w (Reset w g id) id).2 = 0 ∧
    StatValue.Total w (GetValue w (Reset w g id) id).2 = 0 ∧
    StatValue.Min w (GetValue w (Reset w g id) id).2 = 0 ∧
    StatValue.Max w (GetValue w (Reset w g id) id).2 = 0 ∧
    StdMap.find (Reset w g id).Timestamps id = some 0 ∧
    lastTick (Reset w g id) id = 0 ∧
    (Tick w (Reset w g id) id now).Values = (Reset w g id).Values ∧
    valueOf w (Tick w (Reset w g id) id now) id = StatValue.construct w ∧
    StatValue.Count w (valueOf w (Tick w (Reset w g id) id now) id) = 0 ∧
    lastTick (Tick w (Reset w g id) id now) id = now := by
  obtain ⟨h1, h2⟩ := NeverTicked_Reset w g id
  have hg : (GetValue w (Reset w g id) id).2 = StatValue.construct w := h2
  have hv : valueOf w (Tick w (Reset w g id) id now) id = StatValue.construct w := by
    rw [valueOf_Tick, h1, h2]; simp
  have hz : StatValue.Count w (StatValue.construct w) = 0 := StatValue.Count_construct w
  refine ⟨hg, ?_, ?_, ?_, ?_, ?_, h1, ?_, hv, ?_, ?_⟩
  · rw [hg, hz]
  · rw [hg]; simp [StatValue.Total, hz]
  · rw [hg]; simp [StatValue.Min, hz]
  · rw [hg]; simp [StatValue.Max, hz]
  · simp [find_Reset_Timestamps]
  · rw [Tick_eq, h1]; simp
  · rw [hv, hz]
  · simp [lastTick_Tick]

/-- C7 fails on the code: `Reset()` walks the `Values` map only, and an identifier that
was ticked once has a timestamp but no `Values` entry yet. After `Tick(id)` at reading
`t` on the empty maps, `Reset()` changes nothing: the timestamp of `id` is still `t`,
and the next `Tick(id)` accumulates `now - t` unless `t` is 0. With `t = 100` and
`now = 150` the accumulator then reports count 1 and total 50. -/
theorem C7_ResetAll_misses_once_ticked (w : Nat) (id : CharPtr) (t now : Nat) :
    ResetAll w (Tick w empty id t) = Tick w empty id t ∧
    StdMap.find (ResetAll w (Tick w empty id t)).Timestamps id = some t ∧
    valueOf w (Tick w (ResetAll w (Tick w empty id t)) id now) id =
      (if t = 0 then StatValue.construct w
       else StatValue.addAssign w (StatValue.construct w) (usub w now t)) ∧
    lastTick (ResetAll 32 (Tick 32 empty 7 100)) 7 = 100 ∧
    StatValue.Count 32 (valueOf 32 (Tick 32 (ResetAll 32 (Tick 32 empty 7 100)) 7 150) 7) = 1 ∧
    StatValue.Total 32 (valueOf 32 (Tick 32 (ResetAll 32 (Tick 32 empty 7 100)) 7 150) 7)
      = 50 := by
  have h0 : ResetAll w (Tick w empty id t) = Tick w empty id t := by
    simp [ResetAll, Tick_eq, lastTick, empty, StdMap.find, StdMap.keys]
  refine ⟨h0, ?_, ?_, by decide, by decide, by decide⟩
  · rw [h0]; simp [find_Tick_Timestamps]
  · rw [h0, valueOf_Tick, lastTick_Tick, valueOf_Tick]
    by_cases ht : t = 0
    · simp [ht, lastTick, empty, StdMap.find, valueOf_eq]
    · simp [ht, lastTick, empty, StdMap.find, valueOf_eq]

/-- C8: for an identifier that no `Tick`, `Reset(id)` or `GetValue` call was ever made
with, after any sequence of calls from program start, `GetValue(id)` returns a
default-constructed accumulator (there is no failure result; the entry is created):
`Count()`, `Total()`, `Min()`, `Max()` and `Avg()` are all 0. -/
theorem C8_GetValue_never_seen (w : Nat) (calls : List Call) (id : CharPtr)
    (h : ∀ c ∈ calls, c.target ≠ some id) :
    (GetValue w (run w empty calls) id).2 = StatValue.construct w ∧
    StdMap.find (GetValue w (run w empty calls) id).1.Values id
      = some (StatValue.construct w) ∧
    StatValue.Count w (GetValue w (run w empty calls) id).2 = 0 ∧
    StatValue.Total w (GetValue w (run w empty calls) id).2 = 0 ∧
    StatValue.Min w (GetValue w (run w empty calls) id).2 = 0 ∧
    StatValue.Max w (GetValue w (run w empty calls) id).2 = 0 ∧
    StatValue.Avg w (GetValue w (run w empty calls) id).2 = 0 := by
  obtain ⟨hv, _⟩ := absent_run w id calls empty h rfl rfl
  have hg : (GetValue w (run w empty calls) id).2 = StatValue.construct w := by
    have e := valueOf_eq w (run w empty calls) id
    rw [hv] at e
    exact e
  have hz : StatValue.Count w (StatValue.construct w) = 0 := StatValue.Count_construct w
  refine ⟨hg, ?_, ?_, ?_, ?_, ?_, ?_⟩
  · rw [find_GetValue_Values, if_pos rfl, valueOf_eq, hv]; rfl
  · rw [hg, hz]
  · rw [hg]; simp [StatValue.Total, hz]
  · rw [hg]; simp [StatValue.Min, hz]
  · rw [hg]; simp [StatValue.Max, hz]
  · rw [hg]; simp [StatValue.Avg, hz]; rfl

/-- C8 for the identifier 7 after calls made with the identifiers 3, 4 and 5 only. -/
theorem C8_GetValue_never_seen_witness :
    (GetValue 32 (run 32 empty [Call.Tick 3 100, Call.Tick 3 180, Call.ResetAll,
      Call.GetValue 4, Call.Reset 5]) 7).2 = StatValue.construct 32 ∧
    StatValue.Avg 32 (GetValue 32 (run 32 empty [Call.Tick 3 100, Call.Tick 3 180,
      Call.ResetAll, Call.GetValue 4, Call.Reset 5]) 7).2 = 0 :=
  ⟨(C8_GetValue_never_seen 32 [Call.Tick 3 100, Call.Tick 3 180, Call.ResetAll,
      Call.GetValue 4, Call.Reset 5] 7 (by decide)).1,
   (C8_GetValue_never_seen 32 [Call.Tick 3 100, Call.Tick 3 180, Call.ResetAll,
      Call.GetValue 4, Call.Reset 5] 7 (by decide)).2.2.2.2.2.2⟩

/-- C9: a default-constructed `StatValue` reports `Count()`, `Total()`, `Min()`,
`Max()` and `Avg()` all 0, and it is what `GET_INTERVAL_VALUE` yields when profiling is
disabled. -/
theorem C9_construct_reports_zero (w : Nat) :
    StatValue.Count w (StatValue.construct w) = 0 ∧
    StatValue.Total w (StatValue.construct w) = 0 ∧
    StatValue.Min w (StatValue.construct w) = 0 ∧
    StatValue.Max w (StatValue.construct w) = 0 ∧
    StatValue.Avg w (StatValue.construct w) = 0 ∧
    ∀ (g : IntervalMeasureTime) (name : CharPtr),
      GET_INTERVAL_VALUE w false g name = StatValue.construct w := by
  have hz : StatValue.Count w (StatValue.construct w) = 0 := StatValue.Count_construct w
  refine ⟨hz, ?_, ?_, ?_, ?_, ?_⟩
  · simp [StatValue.Total, hz]
  · simp [StatValue.Min, hz]
  · simp [StatValue.Max, hz]
  · simp [StatValue.Avg, hz]; rfl
  · intro g name; rfl

/-- C10: for every state of the fields, `Total()`, `Min()` and `Max()` return 0 when
`Count()` is 0 and the stored total, minimum delta and maximum delta otherwise; in
particular all three return 0 right after `operator=`, whatever value was assigned. -/
theorem C10_zero_count_gate (w : Nat) (s : StatValue) :
    StatValue.Total w s = (if StatValue.Count w s = 0 then 0 else s.Value) ∧
    StatValue.Min w s = (if StatValue.Count w s = 0 then 0 else s.MinDelta) ∧
    StatValue.Max w s = (if StatValue.Count w s = 0 then 0 else s.MaxDelta) ∧
    ∀ v : Nat, StatValue.Count w (StatValue.assign w s v) = 0 ∧
      StatValue.Total w (StatValue.assign w s v) = 0 ∧
      StatValue.Min w (StatValue.assign w s v) = 0 ∧
      StatValue.Max w (StatValue.assign w s v) = 0 := by
  refine ⟨?_, ?_, ?_, ?_⟩
  · unfold StatValue.Total
    by_cases h : StatValue.Count w s = 0
    · simp [h]
    · simp [h, Nat.pos_of_ne_zero h]
  · unfold StatValue.Min
    by_cases h : StatValue.Count w s = 0
    · simp [h]
    · simp [h, Nat.pos_of_ne_zero h]
  · unfold StatValue.Max
    by_cases h : StatValue.Count w s = 0
    · simp [h]
    · simp [h, Nat.pos_of_ne_zero h]
  · intro v
    have hz : StatValue.Count w (StatValue.assign w s v) = 0 := by
      simp [StatValue.Count, StatValue.assign_eq]
    exact ⟨hz, by simp [StatValue.Total, hz], by simp [StatValue.Min, hz],
      by simp [StatValue.Max, hz]⟩

/-- C11, as stated, fails for every nonzero value: right after `operator=(5)` on a
default-constructed accumulator the stored `Value` is 5 but `Count()` is 0, so the gate
of `Total()` returns 0, not 5. -/
theorem C11_Total_after_assign_counterexample :
    StatValue.Total 32 (StatValue.assign 32 (StatValue.construct 32) 5) = 0 ∧
    StatValue.Total 32 (StatValue.assign 32 (StatValue.construct 32) 5) ≠ 5 := by
  decide

/-- C11 (amended): right after `operator=(v)`, from any prior state, the stored total is
`v`, `Count()` returns 0, and `Total()`, `Min()` and `Max()` all return 0 (gated by the
zero count). -/
theorem C11_after_assign (w : Nat) (s : StatValue) (v : Nat) :
    (StatValue.assign w s v).Value = v ∧
    StatValue.Count w (StatValue.assign w s v) = 0 ∧
    StatValue.Total w (StatValue.assign w s v) = 0 ∧
    StatValue.Min w (StatValue.assign w s v) = 0 ∧
    StatValue.Max w (StatValue.assign w s v) = 0 := by
  have hz : StatValue.Count w (StatValue.assign w s v) = 0 := by
    simp [StatValue.Count, StatValue.assign_eq]
  exact ⟨rfl, hz, by simp [StatValue.Total, hz], by simp [StatValue.Min, hz],
    by simp [StatValue.Max, hz]⟩

/-- C12: `Avg()` is the stored total divided by `Count()` when `Count() > 0` (so the
divisor is never zero) and the stored total itself when `Count()` is 0, without the
zero-count gate; right after `operator=(v)` it returns `v`. -/
theorem C12_Avg (w : Nat) (s : StatValue) :
    StatValue.Avg w s =
      (if 0 < StatValue.Count w s then s.Value / StatValue.Count w s else s.Value) ∧
    (if StatValue.Count w s = 0 then StatValue.Avg w s = s.Value
     else StatValue.Count w s ≠ 0 ∧ StatValue.Avg w s = s.Value / StatValue.Count w s) ∧
    ∀ v : Nat, StatValue.Avg w (StatValue.assign w s v) = v := by
  refine ⟨rfl, ?_, ?_⟩
  · by_cases h : StatValue.Count w s = 0
    · simp [StatValue.Avg, h]
    · simp [StatValue.Avg, h, Nat.pos_of_ne_zero h]
  · intro v
    have hz : StatValue.Count w (StatValue.assign w s v) = 0 := by
      simp [StatValue.Count, StatValue.assign_eq]
    simp [StatValue.Avg, hz]
    rfl

/-- C15: a `ScopedMeasureTime` constructed on a target at clock reading `s` and destroyed
at reading `e` leaves the target as one `operator+=` of the unsigned difference `e - s`
leaves it, and unchanged when `e` equals `s`; on a default-constructed target with
`s = 0`, `e = 12` the target reports count 1, total 12, min 12, max 12. -/
theorem C15_ScopedMeasureTime_accumulates_once (w : Nat) (target : StatValue) (s e : Nat) :
    ScopedMeasureTime.destruct w (ScopedMeasureTime.construct s) target e
      = StatValue.addAssign w target (usub w e s) ∧
    ScopedMeasureTime.destruct w (ScopedMeasureTime.construct s) target s = target ∧
    StatValue.Count 32 (ScopedMeasureTime.destruct 32 (ScopedMeasureTime.construct 0)
      (StatValue.construct 32) 12) = 1 ∧
    StatValue.Total 32 (ScopedMeasureTime.destruct 32 (ScopedMeasureTime.construct 0)
      (StatValue.construct 32) 12) = 12 ∧
    StatValue.Min 32 (ScopedMeasureTime.destruct 32 (ScopedMeasureTime.construct 0)
      (StatValue.construct 32) 12) = 12 ∧
    StatValue.Max 32 (ScopedMeasureTime.destruct 32 (ScopedMeasureTime.construct 0)
      (StatValue.construct 32) 12) = 12 := by
  have hss : usub w s s = 0 := by
    unfold usub
    rw [Nat.add_sub_cancel_left, Nat.mod_self]
  refine ⟨rfl, ?_, by decide, by decide, by decide, by decide⟩
  simp [ScopedMeasureTime.destruct, ScopedMeasureTime.construct, hss,
    StatValue.addAssign_zero]

/-- C17, as stated, fails at the threshold itself: a `ScopedCounter` constructed at
reading 100 with silence threshold 10 and destroyed at reading 110 has elapsed time
10, equal to the threshold, and its destructor does call the log function. -/
theorem C17_prints_at_threshold_counterexample :
    usub 32 110 100 = 10 ∧
    (ScopedCounter.destruct 32 false true
      (ScopedCounter.construct (some 1) (some 2) 42 10 100) 110).isSome = true := by
  refine ⟨by decide, ?_⟩
  simp [ScopedCounter.destruct, ScopedCounter.construct, ScopedCounter.PrintResults, usub]

/-- C17 (amended): a `ScopedCounter` constructed at reading `s` with silence threshold `T`
and destroyed at reading `e` prints its elapsed-time message exactly when a log function
is defined and the elapsed time `e - s` (unsigned) is at least `T`: it prints when the
elapsed time equals `T`, and prints nothing when the elapsed time is less than `T`. -/
theorem C17_ScopedCounter_prints_iff_at_least (w : Nat) (Precise logDefined : Bool)
    (func file : Option CharPtr) (line : Int) (T s e : Nat) :
    (ScopedCounter.destruct w Precise logDefined
        (ScopedCounter.construct func file line T s) e).isSome
      = (logDefined && decide (T ≤ usub w e s)) ∧
    (ScopedCounter.destruct w Precise true
        (ScopedCounter.construct func file line (usub w e s) s) e).isSome = true ∧
    ScopedCounter.destruct w Precise logDefined
        (ScopedCounter.construct func file line (usub w e s + 1) s) e = none := by
  have key : ∀ (ld : Bool) (T1 : Nat),
      (ScopedCounter.destruct w Precise ld
          (ScopedCounter.construct func file line T1 s) e).isSome
        = (ld && decide (T1 ≤ usub w e s)) := by
    intro ld T1
    unfold ScopedCounter.destruct
    by_cases h : T1 ≤ usub w e s
    · cases func <;> cases file <;> cases ld <;>
        simp [h, ScopedCounter.construct, ScopedCounter.PrintResults]
    · simp [h, ScopedCounter.construct]
  refine ⟨key logDefined T, ?_, ?_⟩
  · rw [key]; simp
  · have h := key logDefined (usub w e s + 1)
    have hlt : ¬ (usub w e s + 1 ≤ usub w e s) := by omega
    rw [decide_eq_false hlt, Bool.and_false] at h
    exact Option.not_isSome_iff_eq_none.mp (by rw [h]; simp)

/-- C18: for two distinct keys `a` and `b`, `Tick(a)` at any clock reading, `Reset(a)`
and `GetValue(a)` leave the entries of `b` in both maps as they were, hence also the
accumulator that `GetValue(b)` reports and the last-tick timestamp of `b`. -/
theorem C18_frame_other_identifier (w : Nat) (g : IntervalMeasureTime) (a b : CharPtr)
    (now : Nat) (hab : a ≠ b) :
    (StdMap.find (Tick w g a now).Values b = StdMap.find g.Values b ∧
      StdMap.find (Tick w g a now).Timestamps b = StdMap.find g.Timestamps b ∧
      valueOf w (Tick w g a now) b = valueOf w g b ∧
      lastTick (Tick w g a now) b = lastTick g b) ∧
    (StdMap.find (Reset w g a).Values b = StdMap.find g.Values b ∧
      StdMap.find (Reset w g a).Timestamps b = StdMap.find g.Timestamps b ∧
      valueOf w (Reset w g a) b = valueOf w g b ∧
      lastTick (Reset w g a) b = lastTick g b) ∧
    (StdMap.find (GetValue w g a).1.Values b = StdMap.find g.Values b ∧
      StdMap.find (GetValue w g a).1.Timestamps b = StdMap.find g.Timestamps b ∧
      valueOf w (GetValue w g a).1 b = valueOf w g b ∧
      lastTick (GetValue w g a).1 b = lastTick g b) := by
  have hba : b ≠ a := Ne.symm hab
  refine ⟨⟨?_, ?_, ?_, ?_⟩, ⟨?_, ?_, ?_, ?_⟩, ⟨?_, ?_, ?_, ?_⟩⟩
  · simp [find_Tick_Values, hba]
  · simp [find_Tick_Timestamps, hba]
  · simp [valueOf_Tick, hba]
  · simp [lastTick_Tick, hba]
  · simp [find_Reset_Values, hba]
  · simp [find_Reset_Timestamps, hba]
  · simp [valueOf_eq, find_Reset_Values, hba]
  · simp [lastTick, find_Reset_Timestamps, hba]
  · simp [find_GetValue_Values, hba]
  · rfl
  · simp [valueOf_eq, find_GetValue_Values, hba]
  · rfl

/-- C18 for the keys 3 and 7 in a state where both have been ticked twice. -/
theorem C18_frame_other_identifier_witness :
    valueOf 32 (Tick 32 (run 32 empty [Call.Tick 3 10, Call.Tick 7 20, Call.Tick 3 30,
        Call.Tick 7 50]) 3 90) 7
      = valueOf 32 (run 32 empty [Call.Tick 3 10, Call.Tick 7 20, Call.Tick 3 30,
        Call.Tick 7 50]) 7 ∧
    lastTick (Reset 32 (run 32 empty [Call.Tick 3 10, Call.Tick 7 20, Call.Tick 3 30,
        Call.Tick 7 50]) 3) 7
      = lastTick (run 32 empty [Call.Tick 3 10, Call.Tick 7 20, Call.Tick 3 30,
        Call.Tick 7 50]) 7 :=
  ⟨(C18_frame_other_identifier 32 (run 32 empty [Call.Tick 3 10, Call.Tick 7 20,
      Call.Tick 3 30, Call.Tick 7 50]) 3 7 90 (by decide)).1.2.2.1,
   (C18_frame_other_identifier 32 (run 32 empty [Call.Tick 3 10, Call.Tick 7 20,
      Call.Tick 3 30, Call.Tick 7 50]) 3 7 90 (by decide)).2.1.2.2.2⟩

/-! ## Theorems: histories of `operator=` and `operator+=` -/

theorem runOps_cons (w : Nat) (s : StatValue) (op : StatOp) (ops : List StatOp) :
    StatValue.runOps w s (op :: ops) = StatValue.runOps w (StatValue.step w s op) ops := rfl

theorem addAssignAll_concat (w : Nat) (s : StatValue) (ds : List Nat) (d : Nat) :
    StatValue.addAssignAll w s (ds ++ [d])
      = StatValue.addAssign w (StatValue.addAssignAll w s ds) d := by
  simp [StatValue.addAssignAll, List.foldl_append]

/-- The state after a history is the seed of its most recent `operator=` followed by the
nonzero deltas accumulated since. -/
theorem runOps_track (w : Nat) (ops : List StatOp) :
    ∀ (s : StatValue) (b : Nat) (ds : List Nat),
      s = StatValue.addAssignAll w
        { Value := b, MinDelta := 2 ^ w - 1, MaxDelta := 0, NumInc := 0 } ds →
      (∀ d ∈ ds, d ≠ 0) →
      StatValue.runOps w s ops = StatValue.addAssignAll w
        { Value := (ops.foldl track (b, ds)).1, MinDelta := 2 ^ w - 1, MaxDelta := 0,
          NumInc := 0 } (ops.foldl track (b, ds)).2 ∧
      ∀ d ∈ (ops.foldl track (b, ds)).2, d ≠ 0 := by
  induction ops with
  | nil => intro s b ds hs hnz; exact ⟨hs, hnz⟩
  | cons op ops ih =>
    intro s b ds hs hnz
    rw [runOps_cons, List.foldl_cons]
    cases op with
    | assign v =>
      exact ih (StatValue.assign w s v) v [] rfl (by simp)
    | addAssign d =>
      by_cases hd : d = 0
      · have e1 : StatValue.step w s (StatOp.addAssign d) = s := by
          simp [StatValue.step, hd, StatValue.addAssign_zero]
        have e2 : track (b, ds) (StatOp.addAssign d) = (b, ds) := by simp [track, hd]
        rw [e1, e2]
        exact ih s b ds hs hnz
      · have e2 : track (b, ds) (StatOp.addAssign d) = (b, ds ++ [d]) := by
          simp [track, hd]
        rw [e2]
        refine ih _ b (ds ++ [d]) ?_ ?_
        · rw [addAssignAll_concat, ← hs]; rfl
        · intro x hx
          rcases List.mem_append.mp hx with h | h
          · exact hnz x h
          · rw [List.mem_singleton.mp h]; exact hd

theorem track_bounds (w : Nat) (ops : List StatOp) :
    ∀ (b : Nat) (ds : List Nat), b < 2 ^ w → (∀ d ∈ ds, d < 2 ^ w) →
      (∀ op ∈ ops, op.arg < 2 ^ w) →
      (ops.foldl track (b, ds)).1 < 2 ^ w ∧ ∀ d ∈ (ops.foldl track (b, ds)).2, d < 2 ^ w := by
  induction ops with
  | nil => intro b ds hb hds _; exact ⟨hb, hds⟩
  | cons op ops ih =>
    intro b ds hb hds hops
    rw [List.foldl_cons]
    have harg := hops op (List.mem_cons_self op ops)
    have hrest : ∀ o ∈ ops, o.arg < 2 ^ w := fun o ho => hops o (List.mem_cons_of_mem op ho)
    cases op with
    | assign v => exact ih v [] harg (by simp) hrest
    | addAssign d =>
      by_cases hd : d = 0
      · have e2 : track (b, ds) (StatOp.addAssign d) = (b, ds) := by simp [track, hd]
        rw [e2]; exact ih b ds hb hds hrest
      · have e2 : track (b, ds) (StatOp.addAssign d) = (b, ds ++ [d]) := by
          simp [track, hd]
        rw [e2]
        refine ih b (ds ++ [d]) hb ?_ hrest
        intro x hx
        rcases List.mem_append.mp hx with h | h
        · exact hds x h
        · rw [List.mem_singleton.mp h]; exact harg

/-- Closed form of the state after a history of mutations with `unsigned long`
arguments, starting from a default-constructed accumulator. -/
theorem runOps_construct_eq (w : Nat) (ops : List StatOp)
    (hlt : ∀ op ∈ ops, op.arg < 2 ^ w) :
    StatValue.runOps w (StatValue.construct w) ops =
        { Value := (lastAssigned ops + (sinceAssign ops).sum) % 2 ^ w,
          MinDelta := (sinceAssign ops).foldl min (2 ^ w - 1),
          MaxDelta := (sinceAssign ops).foldl max 0,
          NumInc := (sinceAssign ops).length % 2 ^ UINT_BITS } ∧
      (∀ d ∈ sinceAssign ops, d ≠ 0) ∧ (∀ d ∈ sinceAssign ops, d < 2 ^ w) := by
  obtain ⟨h1, h2⟩ := runOps_track w ops (StatValue.construct w) 0 [] rfl (by simp)
  obtain ⟨h3, h4⟩ := track_bounds w ops 0 [] (Nat.two_pow_pos w) (by simp) hlt
  refine ⟨?_, h2, h4⟩
  rw [h1, StatValue.addAssignAll_eq w _ h2 _ h3 (Nat.two_pow_pos UINT_BITS)]
  simp only [lastAssigned, sinceAssign, Nat.zero_add]

/-- A positive `Count()` after a history means that a nonzero delta was accumulated since
the most recent `operator=`. -/
theorem sinceAssign_ne_nil_of_Count_pos (w : Nat) (ops : List StatOp)
    (hlt : ∀ op ∈ ops, op.arg < 2 ^ w)
    (hc : 0 < StatValue.Count w (StatValue.runOps w (StatValue.construct w) ops)) :
    sinceAssign ops ≠ [] := by
  intro h
  rw [(runOps_construct_eq w ops hlt).1, h] at hc
  simp [StatValue.Count] at hc

/-- C13: after any history of `operator=` and `operator+=` calls (with `unsigned long`
arguments) on a default-constructed accumulator, if `Count() > 0` then
`Min() <= d <= Max()` for every nonzero delta `d` accumulated since the most recent
`operator=` (since construction when there is none), and `Min()` and `Max()` are
themselves among those deltas. -/
theorem C13_Min_Max_bound_deltas (w : Nat) (ops : List StatOp)
    (hlt : ∀ op ∈ ops, op.arg < 2 ^ w)
    (hc : 0 < StatValue.Count w (StatValue.runOps w (StatValue.construct w) ops)) :
    (∀ d ∈ sinceAssign ops,
      StatValue.Min w (StatValue.runOps w (StatValue.construct w) ops) ≤ d ∧
      d ≤ StatValue.Max w (StatValue.runOps w (StatValue.construct w) ops)) ∧
    StatValue.Min w (StatValue.runOps w (StatValue.construct w) ops) ∈ sinceAssign ops ∧
    StatValue.Max w (StatValue.runOps w (StatValue.construct w) ops) ∈ sinceAssign ops := by
  have hne := sinceAssign_ne_nil_of_Count_pos w ops hlt hc
  obtain ⟨heq, hnz, hb⟩ := runOps_construct_eq w ops hlt
  have hmin : StatValue.Min w (StatValue.runOps w (StatValue.construct w) ops)
      = (sinceAssign ops).foldl min (2 ^ w - 1) := by
    rw [StatValue.Min, if_pos hc, heq]
  have hmax : StatValue.Max w (StatValue.runOps w (StatValue.construct w) ops)
      = (sinceAssign ops).foldl max 0 := by
    rw [StatValue.Max, if_pos hc, heq]
  obtain ⟨hm1, hm2⟩ := StatValue.foldl_min_sentinel w (sinceAssign ops) hne hb
  obtain ⟨hM1, hM2⟩ := StatValue.foldl_max_sentinel (sinceAssign ops) hne hnz
  rw [hmin, hmax]
  exact ⟨fun d hd => ⟨hm2 d hd, hM2 d hd⟩, hm1, hM1⟩

/-- C13 on the history `+= 9`, `= 4`, `+= 5`, `+= 0`, `+= 3` (32 bits): the deltas since
the assignment are 5 and 3, `Min()` is 3 and `Max()` is 5. -/
theorem C13_Min_Max_bound_deltas_witness :
    sinceAssign [StatOp.addAssign 9, StatOp.assign 4, StatOp.addAssign 5,
      StatOp.addAssign 0, StatOp.addAssign 3] = [5, 3] ∧
    StatValue.Min 32 (StatValue.runOps 32 (StatValue.construct 32)
      [StatOp.addAssign 9, StatOp.assign 4, StatOp.addAssign 5, StatOp.addAssign 0,
        StatOp.addAssign 3]) ≤ 3 ∧
    5 ≤ StatValue.Max 32 (StatValue.runOps 32 (StatValue.construct 32)
      [StatOp.addAssign 9, StatOp.assign 4, StatOp.addAssign 5, StatOp.addAssign 0,
        StatOp.addAssign 3]) :=
  ⟨by decide,
   ((C13_Min_Max_bound_deltas 32 [StatOp.addAssign 9, StatOp.assign 4, StatOp.addAssign 5,
      StatOp.addAssign 0, StatOp.addAssign 3] (by decide) (by decide)).1 3 (by decide)).1,
   ((C13_Min_Max_bound_deltas 32 [StatOp.addAssign 9, StatOp.assign 4, StatOp.addAssign 5,
      StatOp.addAssign 0, StatOp.addAssign 3] (by decide) (by decide)).1 5 (by decide)).2⟩

/-- C14, as stated, fails when a nonzero value was assigned: after `= 5` and `+= 3` on a
default-constructed accumulator `Count()` is 1 and `Total()` is 8, while the only
accumulated delta is 3. -/
theorem C14_seeded_total_counterexample :
    0 < StatValue.Count 32 (StatValue.runOps 32 (StatValue.construct 32)
      [StatOp.assign 5, StatOp.addAssign 3]) ∧
    StatValue.Total 32 (StatValue.runOps 32 (StatValue.construct 32)
      [StatOp.assign 5, StatOp.addAssign 3]) = 8 ∧
    (allDeltas [StatOp.assign 5, StatOp.addAssign 3]).sum = 3 ∧
    (sinceAssign [StatOp.assign 5, StatOp.addAssign 3]).sum = 3 := by
  decide

/-- C14 (amended): after any history of `operator=` and `operator+=` calls (with
`unsigned long` arguments) on a default-constructed accumulator, if `Count() > 0` then
`Total()` is the value of the most recent `operator=` (0 when there is none) plus the sum
of the nonzero deltas accumulated since, modulo `2 ^ w`, hence exactly that sum when it
does not overflow. -/
theorem C14_Total_is_seed_plus_deltas (w : Nat) (ops : List StatOp)
    (hlt : ∀ op ∈ ops, op.arg < 2 ^ w)
    (hc : 0 < StatValue.Count w (StatValue.runOps w (StatValue.construct w) ops)) :
    StatValue.Total w (StatValue.runOps w (StatValue.construct w) ops)
      = (lastAssigned ops + (sinceAssign ops).sum) % 2 ^ w ∧
    (lastAssigned ops + (sinceAssign ops).sum < 2 ^ w →
      StatValue.Total w (StatValue.runOps w (StatValue.construct w) ops)
        = lastAssigned ops + (sinceAssign ops).sum) := by
  have ht : StatValue.Total w (StatValue.runOps w (StatValue.construct w) ops)
      = (lastAssigned ops + (sinceAssign ops).sum) % 2 ^ w := by
    rw [StatValue.Total, if_pos hc, (runOps_construct_eq w ops hlt).1]
  exact ⟨ht, fun h => by rw [ht, Nat.mod_eq_of_lt h]⟩

/-- C14 (amended) on the history `+= 9`, `= 4`, `+= 5`, `+= 0`, `+= 3` (32 bits):
`Total()` is 4 + 5 + 3. -/
theorem C14_Total_is_seed_plus_deltas_witness :
    lastAssigned [StatOp.addAssign 9, StatOp.assign 4, StatOp.addAssign 5,
      StatOp.addAssign 0, StatOp.addAssign 3] = 4 ∧
    StatValue.Total 32 (StatValue.runOps 32 (StatValue.construct 32)
      [StatOp.addAssign 9, StatOp.assign 4, StatOp.addAssign 5, StatOp.addAssign 0,
        StatOp.addAssign 3]) = 12 :=
  ⟨by decide,
   (C14_Total_is_seed_plus_deltas 32 [StatOp.addAssign 9, StatOp.assign 4,
      StatOp.addAssign 5, StatOp.addAssign 0, StatOp.addAssign 3] (by decide)
      (by decide)).2 (by decide)⟩

/-! ## Theorems: keys of `Values` -/

theorem run_append (w : Nat) (g : IntervalMeasureTime) (pre post : List Call) :
    run w g (pre ++ post) = run w (run w g pre) post := by
  simp [run, List.foldl_append]

/-- No call removes a key of `Values`. -/
theorem Values_key_apply (w : Nat) (g : IntervalMeasureTime) (c : Call) (id : CharPtr)
    (h : StdMap.find g.Values id ≠ none) :
    StdMap.find (Call.apply w g c).Values id ≠ none := by
  cases c with
  | Tick id1 now =>
    simp only [Call.apply, find_Tick_Values]
    split_ifs
    · simp
    · exact h
  | Reset id1 =>
    simp only [Call.apply, find_Reset_Values]
    split_ifs
    · simp
    · exact h
  | ResetAll =>
    simp only [Call.apply, find_ResetAll_Values]
    rw [if_pos h]
    simp
  | GetValue id1 =>
    simp only [Call.apply, find_GetValue_Values]
    split_ifs
    · simp
    · exact h

theorem Values_key_run (w : Nat) (id : CharPtr) (calls : List Call) :
    ∀ g : IntervalMeasureTime, StdMap.find g.Values id ≠ none →
      StdMap.find (run w g calls).Values id ≠ none := by
  induction calls with
  | nil => intro g h; exact h
  | cons c calls ih =>
    intro g h
    rw [run_cons]
    exact ih _ (Values_key_apply w g c id h)

/-- The calls that create the `Values` entry of `id`. -/
theorem Values_key_of_createsValue (w : Nat) (g : IntervalMeasureTime) (c : Call)
    (id : CharPtr) (h : createsValue g id c) :
    StdMap.find (Call.apply w g c).Values id ≠ none := by
  cases c with
  | Tick id1 now =>
    obtain ⟨h1, h2⟩ := h
    subst h1
    simp [Call.apply, find_Tick_Values, h2]
  | Reset id1 =>
    have h1 : id1 = id := h
    subst h1
    simp [Call.apply, find_Reset_Values]
  | ResetAll => exact False.elim h
  | GetValue id1 =>
    have h1 : id1 = id := h
    subst h1
    simp [Call.apply, find_GetValue_Values]

/-- An identifier is a key of `Values` as soon as one of the calls made was `Reset(id)`,
`GetValue(id)`, or a `Tick(id)` that found a nonzero stored timestamp for it, whatever
calls follow. -/
theorem Values_key_once_created (w : Nat) (id : CharPtr) (pre : List Call) (c : Call)
    (post : List Call) (h : createsValue (run w empty pre) id c) :
    id ∈ StdMap.keys (run w empty (pre ++ c :: post)).Values := by
  rw [StdMap.mem_keys_iff, run_append, run_cons]
  exact Values_key_run w id post _ (Values_key_of_createsValue w _ c id h)

/-- C16 fails on the code: the first `Tick(id)` stores its clock reading in `Timestamps`
and creates no `Values` entry, so from the empty maps `Tick(id)` at reading `t` leaves
`id` in `Timestamps` with timestamp `t` and not among the keys of `Values`; with
`id = 7`, `t = 100` the timestamp is nonzero. -/
theorem C16_first_Tick_creates_no_Values_entry (w : Nat) (id : CharPtr) (t : Nat) :
    StdMap.find (Tick w empty id t).Timestamps id = some t ∧
    (Tick w empty id t).Values = [] ∧
    id ∉ StdMap.keys (Tick w empty id t).Values ∧
    StdMap.find (run 32 empty [Call.Tick 7 100]).Timestamps 7 = some 100 ∧
    lastTick (run 32 empty [Call.Tick 7 100]) 7 ≠ 0 ∧
    7 ∉ StdMap.keys (run 32 empty [Call.Tick 7 100]).Values := by
  have hv : (Tick w empty id t).Values = [] := by
    rw [Tick_eq]
    simp [lastTick, empty, StdMap.find]
  refine ⟨?_, hv, ?_, by decide, by decide, by decide⟩
  · simp [find_Tick_Timestamps]
  · rw [hv]; simp [StdMap.keys]

/-! ## Theorems: order of the deltas, average -/

theorem addAssign_comm (w : Nat) (s : StatValue) (x y : Nat) :
    StatValue.addAssign w (StatValue.addAssign w s x) y
      = StatValue.addAssign w (StatValue.addAssign w s y) x := by
  by_cases hx : x = 0
  · subst hx; simp [StatValue.addAssign_zero]
  · by_cases hy : y = 0
    · subst hy; simp [StatValue.addAssign_zero]
    · rw [StatValue.addAssign_of_ne_zero w s hx, StatValue.addAssign_of_ne_zero w s hy,
        StatValue.addAssign_of_ne_zero w _ hy, StatValue.addAssign_of_ne_zero w _ hx]
      simp only [Nat.mod_add_mod, StatValue.mk.injEq]
      refine ⟨?_, ?_, ?_, ?_⟩
      · rw [Nat.add_right_comm]
      · omega
      · omega
      · trivial

/-- C19: accumulating two lists of deltas that are permutations of each other with
`operator+=`, from the same starting state, gives the same final state: stored total,
count, minimum and maximum do not depend on the order of the deltas. -/
theorem C19_order_independent (w : Nat) (s : StatValue) (ds1 ds2 : List Nat)
    (h : ds1.Perm ds2) :
    StatValue.addAssignAll w s ds1 = StatValue.addAssignAll w s ds2 :=
  List.Perm.foldl_eq' h (fun x _ y _ z => addAssign_comm w z x y) s

/-- C19 for the deltas 5, 0, 3 and 3, 5, 0 on a default-constructed accumulator. -/
theorem C19_order_independent_witness :
    StatValue.addAssignAll 32 (StatValue.construct 32) [5, 0, 3]
      = StatValue.addAssignAll 32 (StatValue.construct 32) [3, 5, 0] :=
  C19_order_independent 32 (StatValue.construct 32) [5, 0, 3] [3, 5, 0] (by decide)

/-- C20: after a non-empty run of nonzero deltas, fewer than `2 ^ 32` of them and with
a sum that fits `unsigned long`, on a default-constructed accumulator,
`Min() <= Avg() <= Max()`, with `Avg()` the integer quotient `Total() / Count()`. -/
theorem C20_Min_le_Avg_le_Max (w : Nat) (ds : List Nat) (hw : UINT_BITS ≤ w)
    (hne : ds ≠ []) (hnz : ∀ d ∈ ds, d ≠ 0) (hsum : ds.sum < 2 ^ w)
    (hn : ds.length < 2 ^ 32) :
    StatValue.Min w (StatValue.addAssignAll w (StatValue.construct w) ds)
      ≤ StatValue.Avg w (StatValue.addAssignAll w (StatValue.construct w) ds) ∧
    StatValue.Avg w (StatValue.addAssignAll w (StatValue.construct w) ds)
      ≤ StatValue.Max w (StatValue.addAssignAll w (StatValue.construct w) ds) ∧
    StatValue.Avg w (StatValue.addAssignAll w (StatValue.construct w) ds)
      = StatValue.Total w (StatValue.addAssignAll w (StatValue.construct w) ds)
        / StatValue.Count w (StatValue.addAssignAll w (StatValue.construct w) ds) := by
  obtain ⟨hc, ht, hmin, hmax, havg⟩ :=
    StatValue.accessors_addAssignAll_construct w hw ds hne hnz hn
  have hlen : 0 < ds.length := List.length_pos.mpr hne
  have hlo : ds.length * ds.foldl min (2 ^ w - 1) ≤ ds.sum := by
    have := List.card_nsmul_le_sum ds (ds.foldl min (2 ^ w - 1))
      (StatValue.foldl_min_le_mem ds _)
    simpa [smul_eq_mul] using this
  have hhi : ds.sum ≤ ds.length * ds.foldl max 0 := by
    have := List.sum_le_card_nsmul ds (ds.foldl max 0) (StatValue.mem_le_foldl_max ds _)
    simpa [smul_eq_mul] using this
  rw [hc, ht, hmin, hmax, havg, Nat.mod_eq_of_lt hsum]
  refine ⟨?_, ?_, rfl⟩
  · rw [Nat.le_div_iff_mul_le hlen, Nat.mul_comm]; exact hlo
  · exact Nat.div_le_of_le_mul hhi

/-- C20 for the deltas 5, 3, 9 on 32 bits: min 3, average 17 / 3 = 5, max 9. -/
theorem C20_Min_le_Avg_le_Max_witness :
    StatValue.Min 32 (StatValue.addAssignAll 32 (StatValue.construct 32) [5, 3, 9])
      ≤ StatValue.Avg 32 (StatValue.addAssignAll 32 (StatValue.construct 32) [5, 3, 9]) ∧
    StatValue.Avg 32 (StatValue.addAssignAll 32 (StatValue.construct 32) [5, 3, 9])
      ≤ StatValue.Max 32 (StatValue.addAssignAll 32 (StatValue.construct 32) [5, 3, 9]) :=
  ⟨(C20_Min_le_Avg_le_Max 32 [5, 3, 9] (by decide) (by decide) (by decide) (by decide)
      (by decide)).1,
   (C20_Min_le_Avg_le_Max 32 [5, 3, 9] (by decide) (by decide) (by decide) (by decide)
      (by decide)).2.1⟩

end Profiler
